import Mathlib

/-!
Verification of the adk-js invocation engine against its design description.

The definitions below are a shallow embedding of the TypeScript sources:
JavaScript records (`Record<string, T>`) become association lists
`List (String × T)` whose property writes keep the insertion order of keys,
`Promise`-returning methods that may reject become `Except`-valued functions,
and `undefined` is represented explicitly (either with `Option` or with the
`JSVal.undef` constructor).  Mutable objects of the in-memory session service
are represented with explicit heaps of cells addressed by `Nat` references so
that aliasing between stored and returned sessions is observable.
-/

set_option autoImplicit false

namespace Adk

/-! ## JavaScript record primitives -/

/-- Reading a property of a record: the value at the first matching key. -/
def getVal {α : Type} (m : List (String × α)) (k : String) : Option α :=
  match m with
  | [] => none
  | (k2, v) :: rest => if k2 = k then some v else getVal rest k

/-- Writing a property of a record (`obj[k] = v`): an existing key keeps its
position in the insertion order, a new key is appended at the end. -/
def setKey {α : Type} (m : List (String × α)) (k : String) (v : α) :
    List (String × α) :=
  match m with
  | [] => [(k, v)]
  | p :: rest => if p.1 = k then (k, v) :: rest else p :: setKey rest k v

/-- `Object.assign(target, src)`: write every property of `src`, in order,
onto `target`. -/
def assignPairs {α : Type} (target src : List (String × α)) :
    List (String × α) :=
  src.foldl (fun acc p => setKey acc p.1 p.2) target

/-- First defined of two optional values. -/
def orVal {α : Type} (o1 o2 : Option α) : Option α :=
  match o1 with
  | some v => some v
  | none => o2

/-- The value of the last entry of `s` carrying key `k`. -/
def lastVal {α : Type} (s : List (String × α)) (k : String) : Option α :=
  getVal s.reverse k

/-! ## JavaScript values -/

/-- A JavaScript runtime value, as far as the dispatcher inspects it
(`typeof x === 'object'`, `=== null`, `Array.isArray`, `=== undefined`). -/
inductive JSVal where
  | undef
  | nullV
  | boolV (b : Bool)
  | numV (n : Int)
  | strV (s : String)
  | arrV (elems : List JSVal)
  | objV (fields : List (String × JSVal))

/-- `x === undefined`. -/
def JSVal.isUndef : JSVal → Bool
  | .undef => true
  | _ => false

/-- `x === undefined || x === null`. -/
def JSVal.isUndefOrNull : JSVal → Bool
  | .undef => true
  | .nullV => true
  | _ => false

/-! ## Plugin manager (src/src/plugins/plugin_manager.ts) -/

/-- Outcome of awaiting one plugin hook method: a defined value, `undefined`,
or a rejected promise carrying an error message. -/
inductive CallbackResult (O : Type) where
  | value (v : O)
  | undef
  | error (msg : String)
deriving DecidableEq

/-- The projection of a `BasePlugin` to one hook point: its unique `name` and
the hook's method.  `I` is the hook's parameter object type, `O` the type of
its defined return values. -/
structure Plugin (I O : Type) where
  name : String
  callback : I → CallbackResult O

/-- A thrown JavaScript `Error`: its message and, when constructed with
`new Error(msg, cause)`, the message of the cause. -/
structure JsError where
  message : String
  cause : Option String
deriving DecidableEq

/-- The error built by `PluginManager.runCallbacks`'s catch block:
`new Error("Error in plugin <name> during <callbackName> callback: <msg>",
cause)`. -/
def wrapPluginError (pluginName callbackName msg : String) : JsError :=
  { message := "Error in plugin " ++ pluginName ++ " during " ++ callbackName
      ++ " callback: " ++ msg
    cause := some msg }

/-- `PluginManager.runCallbacks`: iterate the registered plugins in order;
a defined result is returned immediately, `undefined` moves on to the next
plugin, a thrown error is wrapped with the plugin and hook names and
re-thrown; when every plugin returned `undefined` the result is
`undefined`. -/
def runCallbacks {I O : Type} (callbackName : String)
    (plugins : List (Plugin I O)) (args : I) : Except JsError (Option O) :=
  match plugins with
  | [] => .ok none
  | p :: rest =>
    match p.callback args with
    | .value v => .ok (some v)
    | .undef => runCallbacks callbackName rest args
    | .error msg => .error (wrapPluginError p.name callbackName msg)

/-- The names of the plugins whose hook method `runCallbacks` actually
invokes, in invocation order (the loop body runs the method of each plugin
it reaches exactly once). -/
def runCallbacksInvoked {I O : Type} (plugins : List (Plugin I O)) (args : I) :
    List String :=
  match plugins with
  | [] => []
  | p :: rest =>
    match p.callback args with
    | .undef => p.name :: runCallbacksInvoked rest args
    | _ => [p.name]

/-- `PluginManager.registerPlugin`: a plugin whose name is already registered
makes the call throw and leaves the registry as it was; otherwise the plugin
is appended to the registry. -/
def registerPlugin {I O : Type} (plugins : List (Plugin I O))
    (p : Plugin I O) : Except JsError (List (Plugin I O)) :=
  if plugins.any (fun q => q.name = p.name) then
    .error { message := "Plugin with name " ++ p.name
        ++ " already registered.", cause := none }
  else .ok (plugins ++ [p])

/-- The `PluginManager` constructor loop: register each given plugin in
order, stopping at the first registration error. -/
def registerAll {I O : Type} (plugins : List (Plugin I O))
    (ps : List (Plugin I O)) : Except JsError (List (Plugin I O)) :=
  match ps with
  | [] => .ok plugins
  | p :: rest =>
    match registerPlugin plugins p with
    | .ok plugins2 => registerAll plugins2 rest
    | .error e => .error e

/-- `PluginManager.getPluginCount`. -/
def getPluginCount {I O : Type} (plugins : List (Plugin I O)) : Nat :=
  plugins.length

/-! ## Event actions (src/core/src/events/event_actions.ts) -/

/-- The `EventActions` interface: the four mapping fields are always present,
the three scalar fields are optional.  Values of the `any`-typed maps are
drawn from a parameter type `α`. -/
structure EventActions (α : Type) where
  skipSummarization : Option Bool := none
  stateDelta : List (String × α) := []
  artifactDelta : List (String × Int) := []
  transferToAgent : Option String := none
  escalate : Option Bool := none
  requestedAuthConfigs : List (String × α) := []
  requestedToolConfirmations : List (String × α) := []

/-- `Partial<EventActions>`: every field may be `undefined`. -/
structure EventActionsOpt (α : Type) where
  skipSummarization : Option Bool := none
  stateDelta : Option (List (String × α)) := none
  artifactDelta : Option (List (String × Int)) := none
  transferToAgent : Option String := none
  escalate : Option Bool := none
  requestedAuthConfigs : Option (List (String × α)) := none
  requestedToolConfirmations : Option (List (String × α)) := none

/-- A full `EventActions` viewed as a `Partial<EventActions>` (every field
present). -/
def EventActions.toOpt {α : Type} (a : EventActions α) : EventActionsOpt α :=
  { skipSummarization := a.skipSummarization
    stateDelta := some a.stateDelta
    artifactDelta := some a.artifactDelta
    transferToAgent := a.transferToAgent
    escalate := a.escalate
    requestedAuthConfigs := some a.requestedAuthConfigs
    requestedToolConfirmations := some a.requestedToolConfirmations }

/-- `createEventActions(state)`: the spread `{emptyMaps, ...state}` keeps a
field of `state` whenever it is present and fills the mapping fields with
empty containers otherwise. -/
def createEventActions {α : Type} (state : EventActionsOpt α) :
    EventActions α :=
  { skipSummarization := state.skipSummarization
    stateDelta := state.stateDelta.getD []
    artifactDelta := state.artifactDelta.getD []
    transferToAgent := state.transferToAgent
    escalate := state.escalate
    requestedAuthConfigs := state.requestedAuthConfigs.getD []
    requestedToolConfirmations := state.requestedToolConfirmations.getD [] }

/-- The body of `mergeEventActions`'s loop for one source: `Object.assign`
each present mapping field onto the accumulator, and overwrite each scalar
field that is not `undefined`. -/
def mergeOneSource {α : Type} (result : EventActions α)
    (source : EventActionsOpt α) : EventActions α :=
  { stateDelta := match source.stateDelta with
      | some m => assignPairs result.stateDelta m
      | none => result.stateDelta
    artifactDelta := match source.artifactDelta with
      | some m => assignPairs result.artifactDelta m
      | none => result.artifactDelta
    requestedAuthConfigs := match source.requestedAuthConfigs with
      | some m => assignPairs result.requestedAuthConfigs m
      | none => result.requestedAuthConfigs
    requestedToolConfirmations := match source.requestedToolConfirmations with
      | some m => assignPairs result.requestedToolConfirmations m
      | none => result.requestedToolConfirmations
    skipSummarization := match source.skipSummarization with
      | some b => some b
      | none => result.skipSummarization
    transferToAgent := match source.transferToAgent with
      | some t => some t
      | none => result.transferToAgent
    escalate := match source.escalate with
      | some b => some b
      | none => result.escalate }

/-- `mergeEventActions(sources, target?)`: start from `createEventActions()`
(overwritten by `target` when given, as `Object.assign(result, target)`
copies every field of a full `EventActions`) and fold the sources in
order. -/
def mergeEventActions {α : Type} (sources : List (EventActionsOpt α))
    (target : Option (EventActions α) := none) : EventActions α :=
  let result := createEventActions {}
  let result := match target with
    | some t => t
    | none => result
  sources.foldl mergeOneSource result

/-! ## Events

The `Event` class itself is not among the given sources; its shape is
modelled from the spec, which lists the fields
`{id, invocationId, author, branch?, timestamp, content?, actions,
longRunningToolIds?}`. -/

/-- A `FunctionCall` part payload (`@google/genai`): all fields optional. -/
structure FunctionCall where
  id : Option String := none
  name : Option String := none
  args : Option (List (String × JSVal)) := none

/-- A `FunctionResponse` part payload. -/
structure FunctionResponse where
  id : Option String := none
  name : Option String := none
  response : Option JSVal := none

/-- A content `Part`; only the alternatives the engine inspects are kept. -/
structure ContentPart where
  text : Option String := none
  functionCall : Option FunctionCall := none
  functionResponse : Option FunctionResponse := none

/-- A `Content`: a role and an optional list of parts. -/
structure Content where
  role : Option String := none
  parts : Option (List ContentPart) := none

/-- Modelled from the spec: an `Event`
`{id, invocationId, author, branch?, timestamp, content?, actions,
longRunningToolIds?}` (the `Event` class is not among the given sources). -/
structure Event (α : Type) where
  invocationId : String := ""
  author : String
  branch : Option String := none
  timestamp : Nat := 0
  content : Option Content := none
  actions : Option (EventActions α) := none
  longRunningToolIds : List String := []

/-- Modelled from the spec: `Event.getFunctionCalls` collects the
function-call payloads of the event's content parts. -/
def getFunctionCalls {α : Type} (e : Event α) : List FunctionCall :=
  match e.content with
  | none => []
  | some c => (c.parts.getD []).filterMap (fun p => p.functionCall)

/-- Modelled from the spec: the function-response payloads of a content. -/
def contentFunctionResponses (c : Content) : List FunctionResponse :=
  (c.parts.getD []).filterMap (fun p => p.functionResponse)

/-- `mergeParallelFunctionResponseEvents`
(src/src/plugins/base_plugin.ts): an empty list throws; a single event is
returned unchanged; otherwise the parts of all events with content are
concatenated, the actions (`event.actions || {}`) are merged with
`mergeEventActions`, and a new event is built from the first event's
author, branch and timestamp with role `user`. -/
def mergeParallelFunctionResponseEvents {α : Type}
    (functionResponseEvents : List (Event α)) : Except JsError (Event α) :=
  match functionResponseEvents with
  | [] => .error ⟨"No function response events provided.", none⟩
  | [e] => .ok e
  | e1 :: e2 :: rest =>
    let events := e1 :: e2 :: rest
    let mergedParts := events.foldl (fun acc ev =>
      match ev.content with
      | some c =>
        match c.parts with
        | some ps => acc ++ ps
        | none => acc
      | none => acc) []
    let actionsList := events.map (fun ev =>
      match ev.actions with
      | some a => a.toOpt
      | none => {})
    let mergedActions := mergeEventActions actionsList
    .ok { author := e1.author
          branch := e1.branch
          content := some { role := some "user", parts := some mergedParts }
          actions := some mergedActions
          timestamp := e1.timestamp }

/-! ## Function-call dispatcher (src/src/plugins/base_plugin.ts) -/

/-- Modelled from the spec: the part of the `InvocationContext` the
dispatcher reads (`invocationContext.invocationId`,
`invocationContext.agent.name`, `invocationContext.branch`); the class is
not among the given sources. -/
structure InvocationContext where
  invocationId : String := ""
  agentName : String
  branch : Option String := none

/-- A `BaseTool` (src/src/tools/base_tool.ts): name, description, the
`isLongRunning` flag, and `runAsync`, which either resolves to a value
(possibly `undefined`) or rejects with an error message. -/
structure BaseTool where
  name : String
  description : String := ""
  isLongRunning : Bool := false
  runAsync : List (String × JSVal) → Except String JSVal

/-- The data reaching the tool callbacks for one call: the tool's name, the
call's arguments and the function call id (standing for the
`{tool, toolArgs, toolContext}` parameter object). -/
structure ToolCallInput where
  toolName : String
  toolArgs : List (String × JSVal)
  functionCallId : Option String

/-- The projection of a `BasePlugin` to the three tool hooks used by the
dispatcher.  Defined return values of these hooks are records. -/
structure ToolPlugin where
  name : String
  beforeToolCallback : ToolCallInput → CallbackResult (List (String × JSVal))
  afterToolCallback :
    ToolCallInput × List (String × JSVal) →
      CallbackResult (List (String × JSVal))
  onToolErrorCallback :
    ToolCallInput × String → CallbackResult (List (String × JSVal))

/-- `PluginManager.runBeforeToolCallback` delegates to `runCallbacks`. -/
def runBeforeToolCallback (plugins : List ToolPlugin) (input : ToolCallInput) :
    Except JsError (Option (List (String × JSVal))) :=
  runCallbacks "beforeToolCallback"
    (plugins.map (fun p => Plugin.mk p.name p.beforeToolCallback)) input

/-- `PluginManager.runAfterToolCallback` delegates to `runCallbacks`. -/
def runAfterToolCallback (plugins : List ToolPlugin) (input : ToolCallInput)
    (result : List (String × JSVal)) :
    Except JsError (Option (List (String × JSVal))) :=
  runCallbacks "afterToolCallback"
    (plugins.map (fun p => Plugin.mk p.name p.afterToolCallback))
    (input, result)

/-- `PluginManager.runOnToolErrorCallback` delegates to `runCallbacks`. -/
def runOnToolErrorCallback (plugins : List ToolPlugin) (input : ToolCallInput)
    (errMsg : String) : Except JsError (Option (List (String × JSVal))) :=
  runCallbacks "onToolErrorCallback"
    (plugins.map (fun p => Plugin.mk p.name p.onToolErrorCallback))
    (input, errMsg)

/-- An agent-level before-tool callback (`SingleBeforeToolCallback`),
returning a record or `undefined`. -/
def SingleBeforeToolCallback : Type :=
  ToolCallInput → Option (List (String × JSVal))

/-- An agent-level after-tool callback (`SingleAfterToolCallback`). -/
def SingleAfterToolCallback : Type :=
  ToolCallInput → List (String × JSVal) → Option (List (String × JSVal))

/-- The agent-callback loops of steps 2 and 5: run the callbacks in order
until one returns a defined value. -/
def firstDefined {β : Type} (cbs : List β) (apply : β → Option (List (String × JSVal))) :
    Option (List (String × JSVal)) :=
  match cbs with
  | [] => none
  | cb :: rest =>
    match apply cb with
    | some r => some r
    | none => firstDefined rest apply

/-- `getToolAndContext`: a missing or falsy call name, or a name absent from
`toolsDict`, throws; otherwise the tool is looked up and a `ToolContext`
carrying `functionCall.id || undefined` is built. -/
def getToolAndContext (fc : FunctionCall)
    (toolsDict : List (String × BaseTool)) :
    Except JsError (BaseTool × Option String) :=
  let nameVal : Option String :=
    match fc.name with
    | some n => if n = "" then none else some n
    | none => none
  match nameVal with
  | none => .error { message := "Function " ++
      (match fc.name with | some n => n | none => "undefined") ++
      " is not found in the toolsDict.", cause := none }
  | some n =>
    match getVal toolsDict n with
    | none => .error { message := "Function " ++ n ++
        " is not found in the toolsDict.", cause := none }
    | some tool =>
      let functionCallId : Option String :=
        match fc.id with
        | some i => if i = "" then none else some i
        | none => none
      .ok (tool, functionCallId)

/-- Step 3 of the dispatcher: when no callback short-circuited, run the tool;
a throw is given to the `onToolError` plugins, and when they do not answer,
`{error: "Tool execution failed: <msg>"}` becomes the response. -/
def runToolStep (plugins : List ToolPlugin) (tool : BaseTool)
    (input : ToolCallInput) (fr : JSVal) : Except JsError JSVal :=
  if fr.isUndef then
    match tool.runAsync input.toolArgs with
    | .ok v => .ok v
    | .error msg =>
      match runOnToolErrorCallback plugins input msg with
      | .error e => .error e
      | .ok (some rec2) => .ok (.objV rec2)
      | .ok none =>
        .ok (.objV [("error", .strV ("Tool execution failed: " ++ msg))])
  else .ok fr

/-- Normalisation before the after-callbacks: a non-null, non-array object
is kept, anything else is wrapped as `{result: value}`. -/
def normalizeResponse (v : JSVal) : List (String × JSVal) :=
  match v with
  | .objV fields => fields
  | other => [("result", other)]

/-- `buildResponseEvent`'s result normalisation: a value that is not an
object (`typeof !== 'object'`) or is `null` is wrapped as
`{result: value}`; objects and arrays are kept. -/
def buildResponseResult (v : JSVal) : JSVal :=
  match v with
  | .objV fields => .objV fields
  | .arrV elems => .arrV elems
  | other => .objV [("result", other)]

/-- `buildResponseEvent`: one function-response part carrying the tool name,
the normalised result and the call id, wrapped in a role-`user` content;
the event's actions are the tool context's accumulated actions (none here,
so `new EventActions({})`). -/
def buildResponseEvent {α : Type} (tool : BaseTool) (functionResult : JSVal)
    (functionCallId : Option String) (ic : InvocationContext) : Event α :=
  let partFunctionResponse : ContentPart :=
    { functionResponse := some
        { name := some tool.name
          response := some (buildResponseResult functionResult)
          id := functionCallId } }
  { invocationId := ic.invocationId
    author := ic.agentName
    content := some { role := some "user", parts := some [partFunctionResponse] }
    actions := some (createEventActions {})
    branch := ic.branch }

/-- The dispatcher's loop body for one function call: plugin `beforeTool`,
agent before-callbacks, tool execution with error containment, plugin
`afterTool`, agent after-callbacks, the long-running skip, and the response
event. -/
def processOneCall {α : Type} (plugins : List ToolPlugin)
    (ic : InvocationContext) (toolsDict : List (String × BaseTool))
    (beforeToolCallbacks : List SingleBeforeToolCallback)
    (afterToolCallbacks : List SingleAfterToolCallback)
    (fc : FunctionCall) : Except JsError (Option (Event α)) :=
  match getToolAndContext fc toolsDict with
  | .error e => .error e
  | .ok (tool, functionCallId) =>
    let functionArgs := fc.args.getD []
    let input : ToolCallInput := ⟨tool.name, functionArgs, functionCallId⟩
    match runBeforeToolCallback plugins input with
    | .error e => .error e
    | .ok r1 =>
      let fr1 : JSVal := match r1 with
        | some rec2 => .objV rec2
        | none => .undef
      let fr2 : JSVal := if fr1.isUndef then
          match firstDefined beforeToolCallbacks (fun cb => cb input) with
          | some rec2 => .objV rec2
          | none => .undef
        else fr1
      match runToolStep plugins tool input fr2 with
      | .error e => .error e
      | .ok functionResponse =>
        let normalized := normalizeResponse functionResponse
        match runAfterToolCallback plugins input normalized with
        | .error e => .error e
        | .ok r4 =>
          let altered : JSVal := match r4 with
            | some rec2 => .objV rec2
            | none => .undef
          let altered : JSVal := if altered.isUndef then
              match firstDefined afterToolCallbacks
                  (fun cb => cb input normalized) with
              | some rec2 => .objV rec2
              | none => .undef
            else altered
          let finalResponse : JSVal :=
            if altered.isUndef then functionResponse else altered
          if tool.isLongRunning && finalResponse.isUndefOrNull then
            .ok none
          else
            .ok (some (buildResponseEvent tool finalResponse functionCallId ic))

/-- The dispatcher's `for` loop over the calls to execute, collecting the
response events in request order; a thrown error aborts the loop. -/
def dispatchCalls {α : Type} (plugins : List ToolPlugin)
    (ic : InvocationContext) (toolsDict : List (String × BaseTool))
    (beforeToolCallbacks : List SingleBeforeToolCallback)
    (afterToolCallbacks : List SingleAfterToolCallback)
    (calls : List FunctionCall) : Except JsError (List (Event α)) :=
  match calls with
  | [] => .ok []
  | fc :: rest =>
    match processOneCall (α := α) plugins ic toolsDict beforeToolCallbacks
        afterToolCallbacks fc with
    | .error e => .error e
    | .ok none =>
      dispatchCalls plugins ic toolsDict beforeToolCallbacks
        afterToolCallbacks rest
    | .ok (some ev) =>
      match dispatchCalls (α := α) plugins ic toolsDict beforeToolCallbacks
          afterToolCallbacks rest with
      | .error e => .error e
      | .ok evs => .ok (ev :: evs)

/-- The allow-list filter of `handleFunctionCallsAsync`:
`!filters || (fc.id && filters.has(fc.id))`. -/
def passesFilters (filters : Option (List String)) (fc : FunctionCall) :
    Bool :=
  match filters with
  | none => true
  | some fs =>
    match fc.id with
    | some i => i ≠ "" && fs.contains i
    | none => false

/-- `handleFunctionCallsAsync`: filter the event's function calls by the
allow-list (none remaining produces no event), dispatch them in order, and
merge the resulting response events (none produces no event, one is
returned unchanged). -/
def handleFunctionCallsAsync {α : Type} (ic : InvocationContext)
    (functionCallEvent : Event α) (toolsDict : List (String × BaseTool))
    (beforeToolCallbacks : List SingleBeforeToolCallback)
    (afterToolCallbacks : List SingleAfterToolCallback)
    (plugins : List ToolPlugin) (filters : Option (List String)) :
    Except JsError (Option (Event α)) :=
  let allFunctionCalls := getFunctionCalls functionCallEvent
  let functionCallsToExecute :=
    allFunctionCalls.filter (passesFilters filters)
  if functionCallsToExecute.isEmpty then .ok none
  else
    match dispatchCalls (α := α) plugins ic toolsDict beforeToolCallbacks
        afterToolCallbacks functionCallsToExecute with
    | .error e => .error e
    | .ok [] => .ok none
    | .ok (ev :: evs) =>
      match mergeParallelFunctionResponseEvents (ev :: evs) with
      | .error e => .error e
      | .ok merged => .ok (some merged)

/-! ## Agent resolution / resumption

The `Runner` class is not among the given sources (only its tests are);
the resolution algorithm is modelled from the spec, which gives three
rules: function-response correlation first, then a backward author walk
skipping unknown or non-transferable authors, then the root agent. -/

/-- Modelled from the spec: an agent node as resolution sees it — its name
and whether it has disabled transfer-to-parent. -/
structure AgentNode where
  name : String
  disallowTransferToParent : Bool := false
deriving DecidableEq

/-- Modelled from the spec: the live agent tree — the root agent and its
sub-agents. -/
structure AgentTree where
  root : AgentNode
  subAgents : List AgentNode
deriving DecidableEq

/-- Modelled from the spec: find the node of the live agent tree with the
given name. -/
def findAgent (t : AgentTree) (name : String) : Option AgentNode :=
  if t.root.name = name then some t.root
  else t.subAgents.find? (fun n => n.name = name)

/-- Modelled from the spec: the author of the most recent history event one
of whose function calls carries the given id. -/
def findCallAuthor {α : Type} (events : List (Event α)) (frId : String) :
    Option String :=
  match events.reverse.find? (fun e =>
      (getFunctionCalls e).any (fun fc => fc.id = some frId)) with
  | some e => some e.author
  | none => none

/-- Modelled from the spec: the backward author walk — the first history
event, from the most recent backward, whose author names a node of the live
tree that is the root or has not disabled transfer-to-parent; the root agent
when there is none.  Takes the history already reversed. -/
def walkBackForAgent {α : Type} (t : AgentTree) :
    List (Event α) → AgentNode
  | [] => t.root
  | e :: rest =>
    match findAgent t e.author with
    | some node =>
      if node.name = t.root.name || !node.disallowTransferToParent then node
      else walkBackForAgent t rest
    | none => walkBackForAgent t rest

/-- Modelled from the spec: `Runner`'s agent resolution.  When the new
message carries a function response, the agent that authored the matching
function call resumes (correlation takes priority over the author walk);
otherwise the backward author walk runs, defaulting to the root agent. -/
def determineAgentForResumption {α : Type} (t : AgentTree)
    (events : List (Event α)) (newMessage : Content) : AgentNode :=
  let frIds := (contentFunctionResponses newMessage).filterMap (fun fr => fr.id)
  let fromCall : Option AgentNode :=
    match frIds with
    | [] => none
    | frId :: _ =>
      match findCallAuthor events frId with
      | some author => findAgent t author
      | none => none
  match fromCall with
  | some node => node
  | none => walkBackForAgent t events.reverse

/-! ## In-memory session service (src/unnamed/part_001)

Sessions are mutable objects; the embedding gives each session object, each
state record and each events array its own heap cell so that the sharing
behaviour of `structuredClone` and of the stored objects is explicit. -/

/-- JS string `startsWith`, expressed on the character lists so that it
computes on concrete keys. -/
def charsPre : List Char → List Char → Bool
  | [], _ => true
  | _ :: _, [] => false
  | c :: cs, d :: ds => c == d && charsPre cs ds

/-- The prefix test `key.startsWith(pre)`. -/
def startsWith (s pre : String) : Bool := charsPre pre.data s.data

/-- Modelled from the spec: `State.APP_PREFIX` (the `State` class is not
among the given sources; the spec names the scope prefixes `app:` and
`user:`). -/
def appScope : String := "app:"

/-- Modelled from the spec: `State.USER_PREFIX`. -/
def userScope : String := "user:"

/-- The mutable fields of a `Session` object: identity, a reference to its
state record and to its events array, and `lastUpdateTime`. -/
structure SessionObj where
  id : String
  appName : String
  userId : String
  stateRef : Nat
  eventsRef : Nat
  lastUpdateTime : Nat
deriving DecidableEq, Inhabited

/-- Allocating a fresh heap cell. -/
def heapAlloc {β : Type} (h : List β) (v : β) : List β × Nat :=
  (h ++ [v], h.length)

/-- Reading a heap cell. -/
def heapGet {β : Type} [Inhabited β] (h : List β) (r : Nat) : β :=
  h.getD r default

/-- Overwriting a heap cell. -/
def heapSet {β : Type} (h : List β) (r : Nat) (v : β) : List β :=
  h.set r v

/-- Reading a two-level nested record. -/
def getNested2 {β : Type} (m : List (String × List (String × β)))
    (k1 k2 : String) : Option β :=
  match getVal m k1 with
  | some m2 => getVal m2 k2
  | none => none

/-- Writing a two-level nested record, creating the missing level
(`m[k1] = m[k1] || {}; m[k1][k2] = v`). -/
def setNested2 {β : Type} (m : List (String × List (String × β)))
    (k1 k2 : String) (v : β) : List (String × List (String × β)) :=
  setKey m k1 (setKey ((getVal m k1).getD []) k2 v)

/-- Reading a three-level nested record. -/
def getNested3 {β : Type}
    (m : List (String × List (String × List (String × β))))
    (k1 k2 k3 : String) : Option β :=
  match getVal m k1 with
  | some m2 => getNested2 m2 k2 k3
  | none => none

/-- Writing a three-level nested record, creating missing levels. -/
def setNested3 {β : Type}
    (m : List (String × List (String × List (String × β))))
    (k1 k2 k3 : String) (v : β) :
    List (String × List (String × List (String × β))) :=
  setKey m k1 (setNested2 ((getVal m k1).getD []) k2 k3 v)

/-- The whole state of an `InMemorySessionService` instance: the three heaps
of mutable objects and the three private records `sessions` (holding
references to session objects), `userState` and `appState`. -/
structure SvcState (α : Type) where
  sessionHeap : List SessionObj := []
  stateHeap : List (List (String × α)) := []
  eventsHeap : List (List (Event α)) := []
  sessions : List (String × List (String × List (String × Nat))) := []
  userState : List (String × List (String × List (String × α))) := []
  appState : List (String × List (String × α)) := []

/-- `structuredClone(session)`: fresh cells for the state record, the events
array and the session object itself, with the same contents. -/
def structuredCloneSession {α : Type} (s : SvcState α) (r : Nat) :
    SvcState α × Nat :=
  let obj := heapGet s.sessionHeap r
  let (stateHeap1, stRef) :=
    heapAlloc s.stateHeap (s.stateHeap.getD obj.stateRef [])
  let (eventsHeap1, evRef) :=
    heapAlloc s.eventsHeap (s.eventsHeap.getD obj.eventsRef [])
  let (sessionHeap1, cRef) := heapAlloc s.sessionHeap
    { obj with stateRef := stRef, eventsRef := evRef }
  ({ s with
      sessionHeap := sessionHeap1
      stateHeap := stateHeap1
      eventsHeap := eventsHeap1 }, cRef)

/-- The overlay loops of `InMemorySessionService.mergeState`: write every
current app-scoped entry under the `app:` prefix and every current
user-scoped entry under the `user:` prefix onto the given state record. -/
def mergeStateList {α : Type} (appEntries userEntries : List (String × α))
    (st0 : List (String × α)) : List (String × α) :=
  let st1 := appEntries.foldl
    (fun acc p => setKey acc (appScope ++ p.1) p.2) st0
  userEntries.foldl (fun acc p => setKey acc (userScope ++ p.1) p.2) st1

/-- `InMemorySessionService.mergeState` writes the overlay back into the
(copied) session's state cell. -/
def mergeState {α : Type} (s : SvcState α) (appName userId : String)
    (r : Nat) : SvcState α :=
  let obj := heapGet s.sessionHeap r
  let st0 := s.stateHeap.getD obj.stateRef []
  let st2 := mergeStateList ((getVal s.appState appName).getD [])
    ((getNested2 s.userState appName userId).getD []) st0
  { s with stateHeap := heapSet s.stateHeap obj.stateRef st2 }

/-- `sessionId || randomUUID()` (`randomUUID` passed in as `genId`). -/
def resolveSessionId (sessionId : Option String) (genId : String) : String :=
  match sessionId with
  | some i => if i = "" then genId else i
  | none => genId

/-- `InMemorySessionService.createSession`: build the new session (the
`Session` constructor, modelled from the spec, defaults the state to an
empty record and the events to an empty array), store a reference to it
under `sessions[appName][userId][id]`, and return `mergeState` applied to a
`structuredClone` of it.  `randomUUID()` and `Date.now()` are passed in as
`genId` and `now`. -/
def createSession {α : Type} (s : SvcState α) (appName userId : String)
    (state : Option (List (String × α))) (sessionId : Option String)
    (genId : String) (now : Nat) : SvcState α × Nat :=
  let sid := resolveSessionId sessionId genId
  let (stateHeap1, stRef) := heapAlloc s.stateHeap (state.getD [])
  let (eventsHeap1, evRef) := heapAlloc s.eventsHeap []
  let obj : SessionObj :=
    { id := sid, appName := appName, userId := userId, stateRef := stRef
      eventsRef := evRef, lastUpdateTime := now }
  let (sessionHeap1, sRef) := heapAlloc s.sessionHeap obj
  let s1 : SvcState α :=
    { s with
        sessionHeap := sessionHeap1
        stateHeap := stateHeap1
        eventsHeap := eventsHeap1
        sessions := setNested3 s.sessions appName userId sid sRef }
  let (s2, cRef) := structuredCloneSession s1 sRef
  (mergeState s2 appName userId cRef, cRef)

/-- `GetSessionConfig`. -/
structure GetSessionConfig where
  numRecentEvents : Option Nat := none
  afterTimestamp : Option Nat := none

/-- The event filtering `getSession` applies to the copied session when a
config is given: keep the `numRecentEvents` most recent events
(`slice(-n)`), then drop everything up to and including the most recent
event whose timestamp is below `afterTimestamp` (both guarded by JS
truthiness, so a value of `0` is ignored). -/
def applyGetSessionConfig {α : Type} (config : Option GetSessionConfig)
    (evs : List (Event α)) : List (Event α) :=
  match config with
  | none => evs
  | some cfg =>
    let evs := match cfg.numRecentEvents with
      | some n => if n ≠ 0 then (evs.reverse.take n).reverse else evs
      | none => evs
    match cfg.afterTimestamp with
    | some t =>
      if t ≠ 0 then
        (evs.reverse.takeWhile (fun e => decide (t ≤ e.timestamp))).reverse
      else evs
    | none => evs

/-- `InMemorySessionService.getSession`: `undefined` when any level of
`sessions[appName][userId][sessionId]` is missing; otherwise a
`structuredClone` of the stored session, with the copy's events filtered by
the config and the copy's state overlaid by `mergeState`.  The returned
reference is the copy's. -/
def getSession {α : Type} (s : SvcState α) (appName userId sessionId : String)
    (config : Option GetSessionConfig) : SvcState α × Option Nat :=
  match getNested3 s.sessions appName userId sessionId with
  | none => (s, none)
  | some r =>
    let (s1, cRef) := structuredCloneSession s r
    let obj := heapGet s1.sessionHeap cRef
    let evs := s1.eventsHeap.getD obj.eventsRef []
    let evs := applyGetSessionConfig config evs
    let s2 : SvcState α :=
      { s1 with eventsHeap := heapSet s1.eventsHeap obj.eventsRef evs }
    (mergeState s2 appName userId cRef, some cRef)

/-- The `stateDelta` of an event's actions (`event.actions &&
event.actions.stateDelta`, empty when the actions are absent). -/
def eventStateDelta {α : Type} (event : Event α) : List (String × α) :=
  match event.actions with
  | some a => a.stateDelta
  | none => []

/-- The session-local write loop of the spec-modelled base `appendEvent`:
apply the unprefixed `stateDelta` entries to a state record, skipping the
scoped ones. -/
def localStateWrite {α : Type} (delta st : List (String × α)) :
    List (String × α) :=
  delta.foldl (fun acc p =>
    if startsWith p.1 appScope || startsWith p.1 userScope then acc
    else setKey acc p.1 p.2) st

/-- Modelled from the spec: `BaseSessionService.appendEvent`
(base_session_service.ts is not among the given sources).  The spec requires
`appendEvent` to apply the §3 scoping rule, under which only unprefixed
(session-local) keys live in the session's own state: the event is pushed
onto the session object's events array and the unprefixed `stateDelta`
entries are written into its state record. -/
def baseAppendEvent {α : Type} (s : SvcState α) (r : Nat) (event : Event α) :
    SvcState α :=
  let obj := heapGet s.sessionHeap r
  let st := s.stateHeap.getD obj.stateRef []
  let st1 := localStateWrite (eventStateDelta event) st
  let evs := s.eventsHeap.getD obj.eventsRef []
  { s with
      stateHeap := heapSet s.stateHeap obj.stateRef st1
      eventsHeap := heapSet s.eventsHeap obj.eventsRef (evs ++ [event]) }

/-- The `stateDelta` routing loop of `InMemorySessionService.appendEvent`:
an `app:`-prefixed key writes `appState[appName][key-without-prefix]`, a
`user:`-prefixed key writes `userState[appName][userId][key-without-prefix]`
(`key.replace(PREFIX, '')` removes the leading prefix). -/
def routeScopedDelta {α : Type} (s : SvcState α) (appName userId : String)
    (delta : List (String × α)) : SvcState α :=
  delta.foldl (fun acc p =>
    let appWrite := setNested2 acc.appState appName (p.1.drop appScope.length) p.2
    let acc := if startsWith p.1 appScope then { acc with appState := appWrite }
      else acc
    let userWrite :=
      setNested3 acc.userState appName userId (p.1.drop userScope.length) p.2
    if startsWith p.1 userScope then { acc with userState := userWrite }
    else acc) s

/-- `InMemorySessionService.appendEvent`: run the base `appendEvent` on the
passed session object and stamp its `lastUpdateTime`; when the session's
app, user and id are present in the store, route the scoped `stateDelta`
entries into `appState`/`userState`, run the base `appendEvent` on the
stored session object and stamp its `lastUpdateTime` as well (a missing
store entry only logs a warning). -/
def appendEvent {α : Type} (s : SvcState α) (r : Nat) (event : Event α) :
    SvcState α :=
  let s1 := baseAppendEvent s r event
  let obj1 := heapGet s1.sessionHeap r
  let stamped1 : SessionObj := { obj1 with lastUpdateTime := event.timestamp }
  let s2 : SvcState α :=
    { s1 with sessionHeap := heapSet s1.sessionHeap r stamped1 }
  let appName := obj1.appName
  let userId := obj1.userId
  let sessionId := obj1.id
  match getNested3 s2.sessions appName userId sessionId with
  | none => s2
  | some storageRef =>
    let s3 := routeScopedDelta s2 appName userId (eventStateDelta event)
    let s4 := baseAppendEvent s3 storageRef event
    let obj2 := heapGet s4.sessionHeap storageRef
    let stamped2 : SessionObj := { obj2 with lastUpdateTime := event.timestamp }
    { s4 with sessionHeap := heapSet s4.sessionHeap storageRef stamped2 }

/-- A caller-side mutation of a session object it was handed: writing a key
of its state record (`session.state[k] = v`). -/
def clientSetStateKey {α : Type} (s : SvcState α) (r : Nat) (k : String)
    (v : α) : SvcState α :=
  let obj := heapGet s.sessionHeap r
  let st := setKey (s.stateHeap.getD obj.stateRef []) k v
  { s with stateHeap := heapSet s.stateHeap obj.stateRef st }

/-- A caller-side mutation of a session object it was handed: pushing onto
its events array (`session.events.push(e)`). -/
def clientPushEvent {α : Type} (s : SvcState α) (r : Nat) (e : Event α) :
    SvcState α :=
  let obj := heapGet s.sessionHeap r
  let evs := (s.eventsHeap.getD obj.eventsRef []) ++ [e]
  { s with eventsHeap := heapSet s.eventsHeap obj.eventsRef evs }

/-- The observable value of a session object: its identity fields and the
dereferenced state record and events array. -/
structure SessionValue (α : Type) where
  id : String
  appName : String
  userId : String
  state : List (String × α)
  events : List (Event α)
  lastUpdateTime : Nat

/-- Dereference a session object into its observable value. -/
def readSessionValue {α : Type} (s : SvcState α) (r : Nat) : SessionValue α :=
  let obj := heapGet s.sessionHeap r
  { id := obj.id
    appName := obj.appName
    userId := obj.userId
    state := s.stateHeap.getD obj.stateRef []
    events := s.eventsHeap.getD obj.eventsRef []
    lastUpdateTime := obj.lastUpdateTime }

/-- The observable result of a whole `getSession` call: the session value
the caller can read from the returned reference. -/
def sessionRead {α : Type} (s : SvcState α) (appName userId sessionId : String)
    (config : Option GetSessionConfig) : Option (SessionValue α) :=
  match getSession s appName userId sessionId config with
  | (s1, some r) => some (readSessionValue s1 r)
  | (_, none) => none

/-- A reference is valid in a service state when it addresses a session
object whose state and events references address cells of their heaps. -/
def refOk {α : Type} (s : SvcState α) (r : Nat) : Prop :=
  r < s.sessionHeap.length ∧
  (heapGet s.sessionHeap r).stateRef < s.stateHeap.length ∧
  (heapGet s.sessionHeap r).eventsRef < s.eventsHeap.length

/-- A reference held by the `sessions` store. -/
def storedRef {α : Type} (s : SvcState α) (r : Nat) : Prop :=
  ∃ e1 ∈ s.sessions, ∃ e2 ∈ e1.2, ∃ e3 ∈ e2.2, e3.2 = r

/-- Well-formedness of a service state: every stored reference is valid. -/
def storedRefsOk {α : Type} (s : SvcState α) : Prop :=
  ∀ e1 ∈ s.sessions, ∀ e2 ∈ e1.2, ∀ e3 ∈ e2.2, refOk s e3.2

instance {α : Type} (s : SvcState α) (r : Nat) : Decidable (refOk s r) := by
  unfold refOk
  infer_instance

instance {α : Type} (s : SvcState α) (r : Nat) : Decidable (storedRef s r) := by
  unfold storedRef
  infer_instance

instance {α : Type} (s : SvcState α) : Decidable (storedRefsOk s) := by
  unfold storedRefsOk
  infer_instance

/-! ## Claim C3 -/

/-- The union rule the spec states for the four mapping fields: the value
for a key comes from the last source defining it (within one source, from
its last write of the key). -/
def specLastAcross {α : Type} (maps : List (List (String × α)))
    (k : String) : Option α :=
  maps.foldl (fun acc m => orVal (lastVal m k) acc) none

/-- The rule the spec states for the scalar fields: the last value that is
not `undefined`. -/
def specLastDefined {β : Type} (opts : List (Option β)) : Option β :=
  opts.foldl (fun acc o => orVal o acc) none

/-! ## Dispatcher lemmas -/

/-- Plugins none of whose tool hooks ever answer: every hook returns
`undefined` on every input. -/
def quietToolPlugins (plugins : List ToolPlugin) : Prop :=
  ∀ p ∈ plugins,
    (∀ x, p.beforeToolCallback x = CallbackResult.undef) ∧
    (∀ x, p.afterToolCallback x = CallbackResult.undef) ∧
    (∀ x, p.onToolErrorCallback x = CallbackResult.undef)

/-- The response value the dispatcher ends up with for one call when no
plugin or agent callback intervenes: the tool's own result, or the
synthesized `{error: ...}` record when the tool throws. -/
def quietCallResponse (toolsDict : List (String × BaseTool))
    (fc : FunctionCall) : Option (BaseTool × Option String × JSVal) :=
  match getToolAndContext fc toolsDict with
  | .error _ => none
  | .ok (tool, cid) =>
    some (tool, cid,
      match tool.runAsync (fc.args.getD []) with
      | .ok v => v
      | .error msg =>
        .objV [("error", .strV ("Tool execution failed: " ++ msg))])

/-- The response event the dispatcher produces for one call when no plugin
or agent callback intervenes (none for a long-running tool whose response
is `undefined` or `null`). -/
def quietCallEvent {α : Type} (ic : InvocationContext)
    (toolsDict : List (String × BaseTool)) (fc : FunctionCall) :
    Option (Event α) :=
  match quietCallResponse toolsDict fc with
  | none => none
  | some (tool, cid, response) =>
    if tool.isLongRunning && response.isUndefOrNull then none
    else some (buildResponseEvent tool response cid ic)

/-- The response event of one call under quiet plugins, as a total
function (an unresolvable call, which the hypotheses of the claims rule
out, is mapped to a placeholder event). -/
def quietCallEventT {α : Type} (ic : InvocationContext)
    (toolsDict : List (String × BaseTool)) (fc : FunctionCall) : Event α :=
  match quietCallResponse toolsDict fc with
  | none => buildResponseEvent ⟨"", "", false, fun _ => .ok .undef⟩
      .undef none ic
  | some (tool, cid, response) => buildResponseEvent tool response cid ic

/-- Concrete invocation context for the C2 witness. -/
def wIc : InvocationContext :=
  { invocationId := "inv1", agentName := "root_agent", branch := none }

/-- Concrete tool registry for the C2 witness: `beta` throws. -/
def wDict : List (String × BaseTool) :=
  [("alpha", { name := "alpha", description := ""
               runAsync := fun _ => .ok (.objV [("ok", .numV 1)]) }),
   ("beta", { name := "beta", description := ""
              runAsync := fun _ => .error "boom" }),
   ("gamma", { name := "gamma", description := ""
               runAsync := fun _ => .ok (.strV "done") })]

/-- Concrete 3-call batch event for the C2 witness. -/
def wEvent : Event Nat :=
  { author := "model"
    content := some
      { role := some "model"
        parts := some
          [{ functionCall := some
              { id := some "call1", name := some "alpha", args := some [] } },
           { functionCall := some
              { id := some "call2", name := some "beta", args := some [] } },
           { functionCall := some
              { id := some "call3", name := some "gamma", args := some [] } }] } }

/-- The merged event the dispatcher must produce for `wEvent`: three
response parts in request order, the second carrying the synthesized error
record. -/
def wMerged : Event Nat :=
  { author := "root_agent"
    branch := none
    timestamp := 0
    content := some
      { role := some "user"
        parts := some
          [{ functionResponse := some
              { id := some "call1", name := some "alpha"
                response := some (.objV [("ok", .numV 1)]) } },
           { functionResponse := some
              { id := some "call2", name := some "beta"
                response := some (.objV [("error",
                  .strV "Tool execution failed: boom")]) } },
           { functionResponse := some
              { id := some "call3", name := some "gamma"
                response := some (.objV [("result", .strV "done")]) } }] }
    actions := some (createEventActions {}) }

/-- Concrete single-call event (call id `x1`) for the C7 witness. -/
def wEventX1 : Event Nat :=
  { author := "model"
    content := some
      { role := some "model"
        parts := some
          [{ functionCall := some
              { id := some "x1", name := some "alpha", args := some [] } }] } }

/-- Concrete long-running tool registry for the C7 witness. -/
def wPendingDict : List (String × BaseTool) :=
  [("pending", { name := "pending", description := ""
                 isLongRunning := true
                 runAsync := fun _ => .ok .undef })]

/-- Concrete single-call event (call id `x2`, long-running tool) for the C7
witness. -/
def wEventX2 : Event Nat :=
  { author := "model"
    content := some
      { role := some "model"
        parts := some
          [{ functionCall := some
              { id := some "x2", name := some "pending", args := some [] } }] } }

/-! ## Claim C8 -/

/-- Modelled from the spec: the function-response payloads of an event. -/
def getFunctionResponses {α : Type} (e : Event α) : List FunctionResponse :=
  match e.content with
  | none => []
  | some c => contentFunctionResponses c

/-- The `app:`/`user:`-scoped entries of a state delta, with the prefix
stripped (the routing the spec describes for `appendEvent`). -/
def scopedEntries {α : Type} (delta : List (String × α)) (pre : String) :
    List (String × α) :=
  delta.filterMap (fun p =>
    if startsWith p.1 pre then some (p.1.drop pre.length, p.2) else none)

/-- A sample service state holding one stored session, for evaluating the
deep-copy facts on a concrete store. -/
def w10s : SvcState Nat :=
  (createSession ({} : SvcState Nat) "app" "u" (some [("x", 1)])
    (some "sid") "g" 5).1

/-- The state after `getSession` has handed out a copy of the stored
session of `w10s`. -/
def w10s1 : SvcState Nat := (getSession w10s "app" "u" "sid" none).1

/-- A sample event the caller pushes onto the returned copy. -/
def w10ev : Event Nat := { author := "user" }

/-- A sample service state holding one stored session, for evaluating the
scoped-state facts on a concrete store. -/
def w4s : SvcState Nat :=
  (createSession ({} : SvcState Nat) "app" "u" (some [("x", 1)])
    (some "sid") "g" 5).1

/-- A sample event carrying one app-scoped, one user-scoped and one
session-local state-delta entry. -/
def w4ev : Event Nat :=
  { author := "agent", timestamp := 9
    actions := some { stateDelta := [("app:t", 10), ("user:q", 11), ("y", 2)] } }

/-- The state after `getSession` has handed out a copy of the stored
session of `w4s`. -/
def w4g1 : SvcState Nat := (getSession w4s "app" "u" "sid" none).1

theorem orVal_some {α : Type} (v : α) (o : Option α) :
    orVal (some v) o = some v := rfl

theorem orVal_none {α : Type} (o : Option α) : orVal none o = o := rfl

theorem getVal_setKey_self {α : Type} (m : List (String × α)) (k : String)
    (v : α) : getVal (setKey m k v) k = some v := by
  induction m with
  | nil => simp [setKey, getVal]
  | cons p rest ih =>
    by_cases hp : p.1 = k
    · simp [setKey, getVal, hp]
    · simp [setKey, getVal, hp, ih]

theorem getVal_setKey_ne {α : Type} (m : List (String × α)) (k k2 : String)
    (v : α) (hne : k2 ≠ k) : getVal (setKey m k v) k2 = getVal m k2 := by
  induction m with
  | nil => simp [setKey, getVal, Ne.symm hne]
  | cons p rest ih =>
    simp only [setKey]
    by_cases hp : p.1 = k
    · have hp2 : ¬p.1 = k2 := fun hh => hne (hh.symm.trans hp)
      rw [if_pos hp]
      simp [getVal, Ne.symm hne, hp2]
    · rw [if_neg hp]
      by_cases hp2 : p.1 = k2
      · simp [getVal, hp2]
      · simp [getVal, hp2, ih]

theorem getVal_append {α : Type} (a b : List (String × α)) (k : String) :
    getVal (a ++ b) k = orVal (getVal a k) (getVal b k) := by
  induction a with
  | nil => simp [getVal, orVal]
  | cons p rest ih =>
    by_cases hp : p.1 = k
    · simp [getVal, hp, orVal]
    · simp [getVal, hp, ih]

theorem lastVal_cons {α : Type} (p : String × α) (s : List (String × α))
    (k : String) :
    lastVal (p :: s) k
      = orVal (lastVal s k) (if p.1 = k then some p.2 else none) := by
  unfold lastVal
  simp only [List.reverse_cons]
  rw [getVal_append]
  by_cases hp : p.1 = k <;> simp [getVal, hp]

theorem getVal_assignPairs {α : Type} (s t : List (String × α)) (k : String) :
    getVal (assignPairs t s) k = orVal (lastVal s k) (getVal t k) := by
  induction s generalizing t with
  | nil => simp [assignPairs, lastVal, getVal, orVal]
  | cons p rest ih =>
    show getVal (assignPairs (setKey t p.1 p.2) rest) k = _
    rw [ih, lastVal_cons]
    cases hr : lastVal rest k with
    | some v => simp [orVal]
    | none =>
      by_cases hp : p.1 = k
      · simp [orVal, hp, getVal_setKey_self]
      · simp [orVal, hp, getVal_setKey_ne t p.1 k p.2 (fun hh => hp hh.symm)]

/-! ## Support lemmas -/

theorem orVal_none_right {α : Type} (o : Option α) : orVal o none = o := by
  cases o <;> rfl

theorem orVal_assoc {α : Type} (a b c : Option α) :
    orVal (orVal a b) c = orVal a (orVal b c) := by
  cases a <;> rfl

theorem runCallbacks_all_undef {I O : Type} (callbackName : String)
    (plugins : List (Plugin I O)) (args : I)
    (h : ∀ p ∈ plugins, p.callback args = CallbackResult.undef) :
    runCallbacks callbackName plugins args = .ok none := by
  induction plugins with
  | nil => rfl
  | cons p rest ih =>
    have hp := h p (by simp)
    simp only [runCallbacks, hp]
    exact ih (fun q hq => h q (by simp [hq]))

theorem runCallbacksInvoked_all_undef {I O : Type}
    (plugins : List (Plugin I O)) (args : I)
    (h : ∀ p ∈ plugins, p.callback args = CallbackResult.undef) :
    runCallbacksInvoked plugins args = plugins.map (fun p => p.name) := by
  induction plugins with
  | nil => rfl
  | cons p rest ih =>
    have hp := h p (by simp)
    simp only [runCallbacksInvoked, hp, List.map_cons]
    rw [ih (fun q hq => h q (by simp [hq]))]

/-! ## Claim C1 -/

/-- Claim C1: for every plugin hook point and registered sequence, the
runner invokes the hook methods in registration order; when the plugins
before the k-th all return `undefined` and the k-th returns a defined
value, that value is returned and the later plugins are never invoked
(the invocation trace stops at the k-th name); when every plugin returns
`undefined` the runner returns `undefined`. -/
theorem c1_plugin_hook_short_circuit {I O : Type} (callbackName : String)
    (pre post : List (Plugin I O)) (pk : Plugin I O) (v : O) (args : I)
    (hpre : ∀ p ∈ pre, p.callback args = CallbackResult.undef)
    (hk : pk.callback args = CallbackResult.value v) :
    runCallbacks callbackName (pre ++ pk :: post) args = .ok (some v) ∧
    runCallbacksInvoked (pre ++ pk :: post) args
      = pre.map (fun p => p.name) ++ [pk.name] ∧
    ∀ ps : List (Plugin I O),
      (∀ p ∈ ps, p.callback args = CallbackResult.undef) →
      runCallbacks callbackName ps args = .ok none := by
  refine ⟨?_, ?_, fun ps hps => runCallbacks_all_undef callbackName ps args hps⟩
  · induction pre with
    | nil => simp [runCallbacks, hk]
    | cons p rest ih =>
      have hp := hpre p (by simp)
      simp only [List.cons_append, runCallbacks, hp]
      exact ih (fun q hq => hpre q (by simp [hq]))
  · induction pre with
    | nil => simp [runCallbacksInvoked, hk]
    | cons p rest ih =>
      have hp := hpre p (by simp)
      simp only [List.cons_append, runCallbacksInvoked, hp, List.map_cons,
        List.append_eq]
      rw [ih (fun q hq => hpre q (by simp [hq]))]

theorem c1_plugin_hook_short_circuit_witness :
    runCallbacks (I := Unit) (O := Nat) "beforeModelCallback"
      [⟨"p1", fun _ => .undef⟩, ⟨"p2", fun _ => .value 7⟩,
       ⟨"p3", fun _ => .value 9⟩] () = .ok (some 7) ∧
    runCallbacksInvoked (I := Unit) (O := Nat)
      [⟨"p1", fun _ => .undef⟩, ⟨"p2", fun _ => .value 7⟩,
       ⟨"p3", fun _ => .value 9⟩] () = ["p1", "p2"] := by
  have h := c1_plugin_hook_short_circuit (I := Unit) (O := Nat)
    "beforeModelCallback" [⟨"p1", fun _ => .undef⟩]
    [⟨"p3", fun _ => .value 9⟩] ⟨"p2", fun _ => .value 7⟩ 7 ()
    (by intro p hp; rw [List.mem_singleton] at hp; subst hp; rfl) rfl
  exact ⟨h.1, h.2.1⟩

/-! ## Claim C5 -/

/-- Claim C5: when the plugins before the throwing one all return
`undefined` and that plugin's hook method throws, `runCallbacks` re-throws
an error whose message names the plugin and the hook and whose cause is the
original error, no later plugin is invoked, and no value is returned. -/
theorem c5_plugin_error_aborts {I O : Type} (callbackName : String)
    (pre post : List (Plugin I O)) (pt : Plugin I O) (msg : String) (args : I)
    (hpre : ∀ p ∈ pre, p.callback args = CallbackResult.undef)
    (ht : pt.callback args = CallbackResult.error msg) :
    runCallbacks callbackName (pre ++ pt :: post) args
      = .error (wrapPluginError pt.name callbackName msg) ∧
    (wrapPluginError pt.name callbackName msg).cause = some msg ∧
    runCallbacksInvoked (pre ++ pt :: post) args
      = pre.map (fun p => p.name) ++ [pt.name] := by
  refine ⟨?_, rfl, ?_⟩
  · induction pre with
    | nil => simp [runCallbacks, ht]
    | cons p rest ih =>
      have hp := hpre p (by simp)
      simp only [List.cons_append, runCallbacks, hp]
      exact ih (fun q hq => hpre q (by simp [hq]))
  · induction pre with
    | nil => simp [runCallbacksInvoked, ht]
    | cons p rest ih =>
      have hp := hpre p (by simp)
      simp only [List.cons_append, runCallbacksInvoked, hp, List.map_cons,
        List.append_eq]
      rw [ih (fun q hq => hpre q (by simp [hq]))]

theorem c5_plugin_error_aborts_witness :
    runCallbacks (I := Unit) (O := Nat) "onEventCallback"
      [⟨"quiet", fun _ => .undef⟩, ⟨"boom", fun _ => .error "kaput"⟩,
       ⟨"later", fun _ => .value 3⟩] ()
      = .error (wrapPluginError "boom" "onEventCallback" "kaput") ∧
    runCallbacksInvoked (I := Unit) (O := Nat)
      [⟨"quiet", fun _ => .undef⟩, ⟨"boom", fun _ => .error "kaput"⟩,
       ⟨"later", fun _ => .value 3⟩] () = ["quiet", "boom"] := by
  have h := c5_plugin_error_aborts (I := Unit) (O := Nat) "onEventCallback"
    [⟨"quiet", fun _ => .undef⟩] [⟨"later", fun _ => .value 3⟩]
    ⟨"boom", fun _ => .error "kaput"⟩ "kaput" ()
    (by intro p hp; rw [List.mem_singleton] at hp; subst hp; rfl) rfl
  exact ⟨h.1, h.2.2⟩

/-! ## Claim C9 -/

theorem registerAll_nodup {I O : Type} (ps plugins : List (Plugin I O))
    (h : ((plugins ++ ps).map (fun p => p.name)).Nodup) :
    registerAll plugins ps = .ok (plugins ++ ps) := by
  induction ps generalizing plugins with
  | nil => simp [registerAll]
  | cons p rest ih =>
    have hnotin : p.name ∉ plugins.map (fun q => q.name) := by
      intro hmem
      rw [List.map_append, List.nodup_append] at h
      exact h.2.2 hmem (by simp)
    have hany : plugins.any (fun q => q.name = p.name) = false := by
      rw [Bool.eq_false_iff]
      intro hc
      rw [List.any_eq_true] at hc
      obtain ⟨q, hq, hqe⟩ := hc
      exact hnotin (List.mem_map.mpr ⟨q, hq, by simpa using hqe⟩)
    simp only [registerAll, registerPlugin, hany, Bool.false_eq_true,
      if_false]
    have h2 : (((plugins ++ [p]) ++ rest).map (fun p => p.name)).Nodup := by
      simpa [List.append_assoc] using h
    rw [ih (plugins ++ [p]) h2]
    simp

/-- Claim C9: registering a plugin whose name is already registered throws
the configuration error (so the registry result carries no new state),
while registering any sequence of plugins with pairwise-distinct names
succeeds with exactly those plugins registered, and `getPluginCount` then
equals the number of plugins registered. -/
theorem c9_register_plugin_unique_names {I O : Type} :
    (∀ (plugins : List (Plugin I O)) (p : Plugin I O),
      p.name ∈ plugins.map (fun q => q.name) →
      registerPlugin plugins p = .error
        ⟨"Plugin with name " ++ p.name ++ " already registered.", none⟩) ∧
    (∀ ps : List (Plugin I O), (ps.map (fun p => p.name)).Nodup →
      registerAll [] ps = .ok ps ∧ getPluginCount ps = ps.length) := by
  constructor
  · intro plugins p hmem
    have hany : plugins.any (fun q => q.name = p.name) = true := by
      rw [List.any_eq_true]
      obtain ⟨q, hq, hqe⟩ := List.mem_map.mp hmem
      exact ⟨q, hq, by simp [hqe]⟩
    simp [registerPlugin, hany]
  · intro ps hnodup
    refine ⟨?_, rfl⟩
    simpa using registerAll_nodup ps [] (by simpa using hnodup)

theorem c9_register_plugin_unique_names_witness :
    registerPlugin (I := Unit) (O := Nat)
      [⟨"dup", fun _ => .undef⟩] ⟨"dup", fun _ => .undef⟩
      = .error ⟨"Plugin with name dup already registered.", none⟩ ∧
    registerAll (I := Unit) (O := Nat) []
      [⟨"a", fun _ => .undef⟩, ⟨"b", fun _ => .undef⟩]
      = .ok [⟨"a", fun _ => .undef⟩, ⟨"b", fun _ => .undef⟩] ∧
    getPluginCount (I := Unit) (O := Nat)
      [⟨"a", fun _ => .undef⟩, ⟨"b", fun _ => .undef⟩] = 2 := by
  have h := c9_register_plugin_unique_names (I := Unit) (O := Nat)
  refine ⟨h.1 [⟨"dup", fun _ => .undef⟩] ⟨"dup", fun _ => .undef⟩ (by simp), ?_, ?_⟩
  · exact (h.2 [⟨"a", fun _ => .undef⟩, ⟨"b", fun _ => .undef⟩]
      (by simp)).1
  · exact (h.2 [⟨"a", fun _ => .undef⟩, ⟨"b", fun _ => .undef⟩]
      (by simp)).2

theorem specLastAcross_acc {α : Type} (maps : List (List (String × α)))
    (a : Option α) (k : String) :
    maps.foldl (fun acc m => orVal (lastVal m k) acc) a
      = orVal (specLastAcross maps k) a := by
  induction maps generalizing a with
  | nil => simp [specLastAcross, orVal]
  | cons m rest ih =>
    simp only [List.foldl_cons]
    rw [ih, show specLastAcross (m :: rest) k
      = rest.foldl (fun acc m2 => orVal (lastVal m2 k) acc)
          (orVal (lastVal m k) none) from rfl]
    rw [ih, orVal_none_right, orVal_assoc]

theorem specLastDefined_acc {β : Type} (opts : List (Option β))
    (a : Option β) :
    opts.foldl (fun acc o => orVal o acc) a
      = orVal (specLastDefined opts) a := by
  induction opts generalizing a with
  | nil => simp [specLastDefined, orVal]
  | cons o rest ih =>
    simp only [List.foldl_cons]
    rw [ih, show specLastDefined (o :: rest)
      = rest.foldl (fun acc o2 => orVal o2 acc) (orVal o none) from rfl]
    rw [ih, orVal_none_right, orVal_assoc]

theorem getVal_foldl_assignPairs {α : Type}
    (maps : List (List (String × α))) (t : List (String × α)) (k : String) :
    getVal (maps.foldl assignPairs t) k
      = orVal (specLastAcross maps k) (getVal t k) := by
  induction maps generalizing t with
  | nil => simp [specLastAcross, orVal]
  | cons m rest ih =>
    simp only [List.foldl_cons]
    rw [ih, getVal_assignPairs, show specLastAcross (m :: rest) k
      = rest.foldl (fun acc m2 => orVal (lastVal m2 k) acc)
          (orVal (lastVal m k) none) from rfl]
    rw [specLastAcross_acc, orVal_none_right, orVal_assoc]

theorem mergeFold_stateDelta {α : Type} (sources : List (EventActionsOpt α))
    (init : EventActions α) :
    (sources.foldl mergeOneSource init).stateDelta
      = (sources.filterMap (fun s => s.stateDelta)).foldl assignPairs
          init.stateDelta := by
  induction sources generalizing init with
  | nil => rfl
  | cons s rest ih =>
    simp only [List.foldl_cons, ih]
    cases hs : s.stateDelta <;>
      simp [mergeOneSource, hs, List.filterMap_cons]

theorem mergeFold_artifactDelta {α : Type} (sources : List (EventActionsOpt α))
    (init : EventActions α) :
    (sources.foldl mergeOneSource init).artifactDelta
      = (sources.filterMap (fun s => s.artifactDelta)).foldl assignPairs
          init.artifactDelta := by
  induction sources generalizing init with
  | nil => rfl
  | cons s rest ih =>
    simp only [List.foldl_cons, ih]
    cases hs : s.artifactDelta <;>
      simp [mergeOneSource, hs, List.filterMap_cons]

theorem mergeFold_requestedAuthConfigs {α : Type}
    (sources : List (EventActionsOpt α)) (init : EventActions α) :
    (sources.foldl mergeOneSource init).requestedAuthConfigs
      = (sources.filterMap (fun s => s.requestedAuthConfigs)).foldl assignPairs
          init.requestedAuthConfigs := by
  induction sources generalizing init with
  | nil => rfl
  | cons s rest ih =>
    simp only [List.foldl_cons, ih]
    cases hs : s.requestedAuthConfigs <;>
      simp [mergeOneSource, hs, List.filterMap_cons]

theorem mergeFold_requestedToolConfirmations {α : Type}
    (sources : List (EventActionsOpt α)) (init : EventActions α) :
    (sources.foldl mergeOneSource init).requestedToolConfirmations
      = (sources.filterMap (fun s => s.requestedToolConfirmations)).foldl
          assignPairs init.requestedToolConfirmations := by
  induction sources generalizing init with
  | nil => rfl
  | cons s rest ih =>
    simp only [List.foldl_cons, ih]
    cases hs : s.requestedToolConfirmations <;>
      simp [mergeOneSource, hs, List.filterMap_cons]

theorem mergeFold_skipSummarization {α : Type}
    (sources : List (EventActionsOpt α)) (init : EventActions α) :
    (sources.foldl mergeOneSource init).skipSummarization
      = orVal (specLastDefined (sources.map (fun s => s.skipSummarization)))
          init.skipSummarization := by
  rw [← specLastDefined_acc]
  induction sources generalizing init with
  | nil => rfl
  | cons s rest ih =>
    simp only [List.foldl_cons, List.map_cons, ih]
    cases hs : s.skipSummarization <;> simp [mergeOneSource, hs, orVal]

theorem mergeFold_transferToAgent {α : Type}
    (sources : List (EventActionsOpt α)) (init : EventActions α) :
    (sources.foldl mergeOneSource init).transferToAgent
      = orVal (specLastDefined (sources.map (fun s => s.transferToAgent)))
          init.transferToAgent := by
  rw [← specLastDefined_acc]
  induction sources generalizing init with
  | nil => rfl
  | cons s rest ih =>
    simp only [List.foldl_cons, List.map_cons, ih]
    cases hs : s.transferToAgent <;> simp [mergeOneSource, hs, orVal]

theorem mergeFold_escalate {α : Type}
    (sources : List (EventActionsOpt α)) (init : EventActions α) :
    (sources.foldl mergeOneSource init).escalate
      = orVal (specLastDefined (sources.map (fun s => s.escalate)))
          init.escalate := by
  rw [← specLastDefined_acc]
  induction sources generalizing init with
  | nil => rfl
  | cons s rest ih =>
    simp only [List.foldl_cons, List.map_cons, ih]
    cases hs : s.escalate <;> simp [mergeOneSource, hs, orVal]

/-- Claim C3: `mergeEventActions` computes, for every key of each of the
four mapping fields, the left-to-right union with a later source winning on
duplicate keys, and gives each scalar field the last non-undefined value
among the sources; in particular merging
`[{stateDelta: {a: 1}}, {stateDelta: {a: 2, b: 3}}]` yields the state delta
`{a: 2, b: 3}`. -/
theorem c3_merge_event_actions_union :
    (∀ (α : Type) (sources : List (EventActionsOpt α)) (k : String),
      getVal (mergeEventActions sources).stateDelta k
        = specLastAcross (sources.filterMap (fun s => s.stateDelta)) k ∧
      getVal (mergeEventActions sources).artifactDelta k
        = specLastAcross (sources.filterMap (fun s => s.artifactDelta)) k ∧
      getVal (mergeEventActions sources).requestedAuthConfigs k
        = specLastAcross
            (sources.filterMap (fun s => s.requestedAuthConfigs)) k ∧
      getVal (mergeEventActions sources).requestedToolConfirmations k
        = specLastAcross
            (sources.filterMap (fun s => s.requestedToolConfirmations)) k ∧
      (mergeEventActions sources).skipSummarization
        = specLastDefined (sources.map (fun s => s.skipSummarization)) ∧
      (mergeEventActions sources).transferToAgent
        = specLastDefined (sources.map (fun s => s.transferToAgent)) ∧
      (mergeEventActions sources).escalate
        = specLastDefined (sources.map (fun s => s.escalate))) ∧
    (mergeEventActions (α := Nat)
      [{ stateDelta := some [("a", 1)] },
       { stateDelta := some [("a", 2), ("b", 3)] }]).stateDelta
      = [("a", 2), ("b", 3)] := by
  constructor
  · intro α sources k
    refine ⟨?_, ?_, ?_, ?_, ?_, ?_, ?_⟩
    · rw [show mergeEventActions sources
        = sources.foldl mergeOneSource (createEventActions {}) from rfl]
      rw [mergeFold_stateDelta, getVal_foldl_assignPairs]
      simp [createEventActions, getVal, orVal_none_right]
    · rw [show mergeEventActions sources
        = sources.foldl mergeOneSource (createEventActions {}) from rfl]
      rw [mergeFold_artifactDelta, getVal_foldl_assignPairs]
      simp [createEventActions, getVal, orVal_none_right]
    · rw [show mergeEventActions sources
        = sources.foldl mergeOneSource (createEventActions {}) from rfl]
      rw [mergeFold_requestedAuthConfigs, getVal_foldl_assignPairs]
      simp [createEventActions, getVal, orVal_none_right]
    · rw [show mergeEventActions sources
        = sources.foldl mergeOneSource (createEventActions {}) from rfl]
      rw [mergeFold_requestedToolConfirmations, getVal_foldl_assignPairs]
      simp [createEventActions, getVal, orVal_none_right]
    · rw [show mergeEventActions sources
        = sources.foldl mergeOneSource (createEventActions {}) from rfl]
      rw [mergeFold_skipSummarization]
      simp [createEventActions, orVal_none_right]
    · rw [show mergeEventActions sources
        = sources.foldl mergeOneSource (createEventActions {}) from rfl]
      rw [mergeFold_transferToAgent]
      simp [createEventActions, orVal_none_right]
    · rw [show mergeEventActions sources
        = sources.foldl mergeOneSource (createEventActions {}) from rfl]
      rw [mergeFold_escalate]
      simp [createEventActions, orVal_none_right]
  · rfl

/-! ## Claim C6 -/

theorem foldl_collect_parts {α : Type} (evs : List (Event α))
    (acc : List ContentPart) :
    evs.foldl (fun acc2 ev =>
      match ev.content with
      | some c =>
        match c.parts with
        | some ps => acc2 ++ ps
        | none => acc2
      | none => acc2) acc
    = acc ++ evs.flatMap
        (fun ev => (ev.content.bind (fun c => c.parts)).getD []) := by
  induction evs generalizing acc with
  | nil => simp
  | cons e rest ih =>
    simp only [List.foldl_cons, List.flatMap_cons]
    cases he : e.content with
    | none => simp [ih, he]
    | some c =>
      cases hp : c.parts with
      | none => simp [ih, he, hp, Option.bind]
      | some ps => simp [ih, he, hp, Option.bind, List.append_assoc]

/-- Claim C6: merging two or more function-response events returns a single
event whose content holds, in dispatch order, the concatenation of the
events' content parts and whose actions are the `mergeEventActions` merge
of the events' actions; merging exactly one response event returns it
unchanged. -/
theorem c6_merge_parallel_response_events {α : Type} (e : Event α)
    (e1 e2 : Event α) (rest : List (Event α)) :
    mergeParallelFunctionResponseEvents [e] = .ok e ∧
    ∃ ev, mergeParallelFunctionResponseEvents (e1 :: e2 :: rest) = .ok ev ∧
      ev.content = some
        { role := some "user"
          parts := some ((e1 :: e2 :: rest).flatMap
            (fun x => (x.content.bind (fun c => c.parts)).getD [])) } ∧
      ev.actions = some (mergeEventActions ((e1 :: e2 :: rest).map
        (fun x =>
          match x.actions with
          | some a => a.toOpt
          | none => {}))) ∧
      ev.author = e1.author ∧ ev.branch = e1.branch ∧
      ev.timestamp = e1.timestamp := by
  have hmain : mergeParallelFunctionResponseEvents (e1 :: e2 :: rest) = .ok
      { author := e1.author
        branch := e1.branch
        content := some
          { role := some "user"
            parts := some ((e1 :: e2 :: rest).flatMap
              (fun x => (x.content.bind (fun c => c.parts)).getD [])) }
        actions := some (mergeEventActions ((e1 :: e2 :: rest).map
          (fun x =>
            match x.actions with
            | some a => a.toOpt
            | none => {})))
        timestamp := e1.timestamp } := by
    simp only [mergeParallelFunctionResponseEvents]
    rw [foldl_collect_parts]
    simp
  exact ⟨rfl, ⟨_, hmain, rfl, rfl, rfl, rfl, rfl⟩⟩

theorem runBeforeToolCallback_quiet (plugins : List ToolPlugin)
    (input : ToolCallInput) (hq : quietToolPlugins plugins) :
    runBeforeToolCallback plugins input = .ok none := by
  apply runCallbacks_all_undef
  intro q hqmem
  obtain ⟨p, hp, rfl⟩ := List.mem_map.mp hqmem
  exact (hq p hp).1 input

theorem runAfterToolCallback_quiet (plugins : List ToolPlugin)
    (input : ToolCallInput) (result : List (String × JSVal))
    (hq : quietToolPlugins plugins) :
    runAfterToolCallback plugins input result = .ok none := by
  apply runCallbacks_all_undef
  intro q hqmem
  obtain ⟨p, hp, rfl⟩ := List.mem_map.mp hqmem
  exact (hq p hp).2.1 (input, result)

theorem runOnToolErrorCallback_quiet (plugins : List ToolPlugin)
    (input : ToolCallInput) (msg : String) (hq : quietToolPlugins plugins) :
    runOnToolErrorCallback plugins input msg = .ok none := by
  apply runCallbacks_all_undef
  intro q hqmem
  obtain ⟨p, hp, rfl⟩ := List.mem_map.mp hqmem
  exact (hq p hp).2.2 (input, msg)

theorem processOneCall_quiet {α : Type} (plugins : List ToolPlugin)
    (ic : InvocationContext) (toolsDict : List (String × BaseTool))
    (fc : FunctionCall) (tool : BaseTool) (cid : Option String)
    (hq : quietToolPlugins plugins)
    (hres : getToolAndContext fc toolsDict = .ok (tool, cid)) :
    processOneCall (α := α) plugins ic toolsDict [] [] fc
      = .ok (quietCallEvent ic toolsDict fc) := by
  have hbefore := runBeforeToolCallback_quiet plugins
    ⟨tool.name, fc.args.getD [], cid⟩ hq
  cases hrun : tool.runAsync (fc.args.getD []) with
  | ok v =>
    have hafter := runAfterToolCallback_quiet plugins
      ⟨tool.name, fc.args.getD [], cid⟩ (normalizeResponse v) hq
    simp [processOneCall, hres, hbefore, firstDefined, runToolStep,
      JSVal.isUndef, hafter, quietCallEvent, quietCallResponse, hrun,
      apply_ite]
  | error msg =>
    have honerr := runOnToolErrorCallback_quiet plugins
      ⟨tool.name, fc.args.getD [], cid⟩ msg hq
    have hafter := runAfterToolCallback_quiet plugins
      ⟨tool.name, fc.args.getD [], cid⟩
      (normalizeResponse
        (.objV [("error", .strV ("Tool execution failed: " ++ msg))])) hq
    simp [processOneCall, hres, hbefore, firstDefined, runToolStep,
      JSVal.isUndef, honerr, hafter, quietCallEvent, quietCallResponse,
      hrun, apply_ite]

theorem dispatchCalls_quiet {α : Type} (plugins : List ToolPlugin)
    (ic : InvocationContext) (toolsDict : List (String × BaseTool))
    (calls : List FunctionCall) (hq : quietToolPlugins plugins)
    (hres : ∀ fc ∈ calls, ∃ tool cid,
      getToolAndContext fc toolsDict = .ok (tool, cid)) :
    dispatchCalls (α := α) plugins ic toolsDict [] [] calls
      = .ok (calls.filterMap (quietCallEvent ic toolsDict)) := by
  induction calls with
  | nil => rfl
  | cons fc rest ih =>
    obtain ⟨tool, cid, hfc⟩ := hres fc (by simp)
    have hone := processOneCall_quiet (α := α) plugins ic toolsDict fc tool
      cid hq hfc
    have hrest := ih (fun fc2 h2 => hres fc2 (by simp [h2]))
    simp only [dispatchCalls, hone, List.filterMap_cons]
    cases hev : quietCallEvent (α := α) ic toolsDict fc with
    | none => simpa using hrest
    | some ev => simp [hrest]

/-- The response events of two or more calls merge into one event whose
parts are the concatenation of the per-event parts (the two-or-more branch
of `mergeParallelFunctionResponseEvents`, in closed form). -/
theorem mergeParallel_ok {α : Type} (x y : Event α) (zs : List (Event α)) :
    mergeParallelFunctionResponseEvents (x :: y :: zs) = .ok
      { author := x.author
        branch := x.branch
        content := some
          { role := some "user"
            parts := some ((x :: y :: zs).flatMap
              (fun a => (a.content.bind (fun c => c.parts)).getD [])) }
        actions := some (mergeEventActions ((x :: y :: zs).map
          (fun a =>
            match a.actions with
            | some b => b.toOpt
            | none => {})))
        timestamp := x.timestamp } := by
  simp only [mergeParallelFunctionResponseEvents]
  rw [foldl_collect_parts]
  simp

theorem filterMap_eq_map_of_some {β γ : Type} (l : List β)
    (f : β → Option γ) (g : β → γ) (h : ∀ x ∈ l, f x = some (g x)) :
    l.filterMap f = l.map g := by
  induction l with
  | nil => rfl
  | cons x rest ih =>
    simp only [List.filterMap_cons, h x (by simp), List.map_cons]
    rw [ih (fun y hy => h y (by simp [hy]))]

theorem quiet_parts_flatMap {α : Type} (ic : InvocationContext)
    (toolsDict : List (String × BaseTool)) (calls : List FunctionCall)
    (hres : ∀ fc ∈ calls, ∃ tool cid,
      getToolAndContext fc toolsDict = .ok (tool, cid)) :
    (calls.map (quietCallEventT (α := α) ic toolsDict)).flatMap
        (fun a => (a.content.bind (fun c => c.parts)).getD [])
    = calls.flatMap (fun fc =>
        match getToolAndContext fc toolsDict with
        | .error _ => []
        | .ok (tool, cid) =>
          [{ functionResponse := some
              { id := cid
                name := some tool.name
                response := some (buildResponseResult
                  (match tool.runAsync (fc.args.getD []) with
                   | .ok v => v
                   | .error msg => .objV [("error",
                       .strV ("Tool execution failed: " ++ msg))])) } }]) := by
  induction calls with
  | nil => rfl
  | cons fc rest ih =>
    obtain ⟨tool, cid, hok⟩ := hres fc (by simp)
    simp only [List.map_cons, List.flatMap_cons]
    rw [ih (fun y hy => hres y (by simp [hy]))]
    congr 1
    simp only [quietCallEventT, quietCallResponse, hok]
    cases tool.runAsync (fc.args.getD []) <;> rfl

/-! ## Claim C2 -/

/-- Claim C2: when no plugin answers any tool hook (in particular no
`onToolError` callback returns a defined value), a call whose tool throws
gets the synthesized `{error: message}` record as its response and every
remaining call of the batch is still dispatched: a batch of two or more
non-long-running calls yields one merged event with exactly one response
part per call, in request order, where a failing call's part carries the
error record and the others carry their tools' results. -/
theorem c2_failing_call_never_aborts_batch {α : Type}
    (plugins : List ToolPlugin) (ic : InvocationContext)
    (toolsDict : List (String × BaseTool)) (functionCallEvent : Event α)
    (calls : List FunctionCall)
    (hq : quietToolPlugins plugins)
    (hev : getFunctionCalls functionCallEvent = calls)
    (hres : ∀ fc ∈ calls, ∃ tool cid,
      getToolAndContext fc toolsDict = .ok (tool, cid) ∧
      tool.isLongRunning = false)
    (hlen : 2 ≤ calls.length) :
    ∃ ev, handleFunctionCallsAsync ic functionCallEvent toolsDict [] []
        plugins none = .ok (some ev) ∧
      ev.content = some
        { role := some "user"
          parts := some (calls.flatMap (fun fc =>
            match getToolAndContext fc toolsDict with
            | .error _ => []
            | .ok (tool, cid) =>
              [{ functionResponse := some
                  { id := cid
                    name := some tool.name
                    response := some (buildResponseResult
                      (match tool.runAsync (fc.args.getD []) with
                       | .ok v => v
                       | .error msg => .objV [("error",
                           .strV ("Tool execution failed: " ++ msg))])) } }])) }
    := by
  obtain ⟨c1, t1, rfl⟩ : ∃ x xs, calls = x :: xs := by
    cases calls with
    | nil => simp at hlen
    | cons a b => exact ⟨a, b, rfl⟩
  obtain ⟨c2, cs, rfl⟩ : ∃ x xs, t1 = x :: xs := by
    cases t1 with
    | nil => simp at hlen
    | cons a b => exact ⟨a, b, rfl⟩
  have hfilter : (c1 :: c2 :: cs).filter (passesFilters none) = c1 :: c2 :: cs := by
    simp [passesFilters]
  have hsome : ∀ fc ∈ c1 :: c2 :: cs, quietCallEvent (α := α) ic toolsDict fc
      = some (quietCallEventT ic toolsDict fc) := by
    intro fc hfc
    obtain ⟨tool, cid, hok, hlr⟩ := hres fc hfc
    simp only [quietCallEvent, quietCallEventT, quietCallResponse, hok, hlr,
      Bool.false_and, Bool.false_eq_true, if_false]
  have hdisp := dispatchCalls_quiet (α := α) plugins ic toolsDict
    (c1 :: c2 :: cs) hq
    (fun fc hfc => by
      obtain ⟨tool, cid, hok, hlr⟩ := hres fc hfc
      exact ⟨tool, cid, hok⟩)
  have hmap := filterMap_eq_map_of_some (c1 :: c2 :: cs)
    (quietCallEvent (α := α) ic toolsDict)
    (quietCallEventT ic toolsDict) hsome
  have hparts := quiet_parts_flatMap (α := α) ic toolsDict (c1 :: c2 :: cs)
    (fun fc hfc => by
      obtain ⟨tool, cid, hok, hlr⟩ := hres fc hfc
      exact ⟨tool, cid, hok⟩)
  rw [hmap] at hdisp
  simp only [List.map_cons] at hdisp
  have hmerge := mergeParallel_ok (α := α) (quietCallEventT ic toolsDict c1)
    (quietCallEventT ic toolsDict c2)
    (List.map (quietCallEventT ic toolsDict) cs)
  refine ⟨?ev, ?h1, ?h2⟩
  case ev =>
    exact
      { author := (quietCallEventT (α := α) ic toolsDict c1).author
        branch := (quietCallEventT (α := α) ic toolsDict c1).branch
        content := some
          { role := some "user"
            parts := some ((quietCallEventT (α := α) ic toolsDict c1 ::
              quietCallEventT ic toolsDict c2 ::
              List.map (quietCallEventT ic toolsDict) cs).flatMap
                (fun a => (a.content.bind (fun c => c.parts)).getD [])) }
        actions := some (mergeEventActions
          ((quietCallEventT (α := α) ic toolsDict c1 ::
            quietCallEventT ic toolsDict c2 ::
            List.map (quietCallEventT ic toolsDict) cs).map
              (fun a =>
                match a.actions with
                | some b => b.toOpt
                | none => {})))
        timestamp := (quietCallEventT (α := α) ic toolsDict c1).timestamp }
  case h1 =>
    simp only [handleFunctionCallsAsync, hev, hfilter,
      List.isEmpty_cons, if_false, hdisp]
    rw [hmerge]
    rfl
  case h2 =>
    simp only [List.map_cons] at hparts
    simp only [← hparts]

theorem c2_failing_call_never_aborts_batch_witness :
    handleFunctionCallsAsync wIc wEvent wDict [] [] [] none
      = .ok (some wMerged) := by
  obtain ⟨ev, h1, h2⟩ := c2_failing_call_never_aborts_batch (α := Nat)
    [] wIc wDict wEvent
    [{ id := some "call1", name := some "alpha", args := some [] },
     { id := some "call2", name := some "beta", args := some [] },
     { id := some "call3", name := some "gamma", args := some [] }]
    (by intro p hp; simp at hp)
    rfl
    (by
      intro fc hfc
      simp only [List.mem_cons, List.not_mem_nil, or_false] at hfc
      rcases hfc with rfl | rfl | rfl
      · exact ⟨_, some "call1", rfl, rfl⟩
      · exact ⟨_, some "call2", rfl, rfl⟩
      · exact ⟨_, some "call3", rfl, rfl⟩)
    (by simp)
  have h0 : (Except.ok (some ev) : Except JsError (Option (Event Nat)))
      = .ok (some wMerged) := by
    rw [← h1]
    rfl
  exact h1.trans h0

/-! ## Claim C7 -/

/-- Claim C7: when an allow-list is given and no requested call's id belongs
to it, the dispatcher produces no event; a call whose tool is long-running
and whose final response is `undefined` or `null` contributes no response
event; and a batch producing zero response events makes the dispatcher
return nothing. -/
theorem c7_filters_and_long_running {α : Type} :
    (∀ (plugins : List ToolPlugin) (ic : InvocationContext)
      (toolsDict : List (String × BaseTool))
      (beforeCbs : List SingleBeforeToolCallback)
      (afterCbs : List SingleAfterToolCallback)
      (ev : Event α) (allowIds : List String),
      (∀ fc ∈ getFunctionCalls ev, ∀ i, fc.id = some i → i ∉ allowIds) →
      handleFunctionCallsAsync ic ev toolsDict beforeCbs afterCbs plugins
        (some allowIds) = .ok none) ∧
    (∀ (plugins : List ToolPlugin) (ic : InvocationContext)
      (toolsDict : List (String × BaseTool)) (fc : FunctionCall)
      (tool : BaseTool) (cid : Option String),
      quietToolPlugins plugins →
      getToolAndContext fc toolsDict = .ok (tool, cid) →
      tool.isLongRunning = true →
      (tool.runAsync (fc.args.getD []) = .ok .undef ∨
       tool.runAsync (fc.args.getD []) = .ok .nullV) →
      processOneCall (α := α) plugins ic toolsDict [] [] fc = .ok none) ∧
    (∀ (plugins : List ToolPlugin) (ic : InvocationContext)
      (toolsDict : List (String × BaseTool)) (ev : Event α),
      quietToolPlugins plugins →
      (∀ fc ∈ getFunctionCalls ev, ∃ tool cid,
        getToolAndContext fc toolsDict = .ok (tool, cid) ∧
        tool.isLongRunning = true ∧
        tool.runAsync (fc.args.getD []) = .ok .undef) →
      handleFunctionCallsAsync ic ev toolsDict [] [] plugins none
        = .ok none) := by
  refine ⟨?_, ?_, ?_⟩
  · intro plugins ic toolsDict beforeCbs afterCbs ev allowIds h
    have hnil : (getFunctionCalls ev).filter (passesFilters (some allowIds))
        = [] := by
      rw [List.filter_eq_nil_iff]
      intro fc hfc
      cases hid : fc.id with
      | none => simp [passesFilters, hid]
      | some i =>
        by_cases hi : i = ""
        · simp [passesFilters, hid, hi]
        · have hmem := h fc hfc i hid
          simp [passesFilters, hid, hi, hmem]
    simp [handleFunctionCallsAsync, hnil]
  · intro plugins ic toolsDict fc tool cid hq hok hlr hrun
    rw [processOneCall_quiet plugins ic toolsDict fc tool cid hq hok]
    rcases hrun with h | h <;>
      simp [quietCallEvent, quietCallResponse, hok, h, hlr,
        JSVal.isUndefOrNull]
  · intro plugins ic toolsDict ev hq hall
    have hfilter : (getFunctionCalls ev).filter (passesFilters none)
        = getFunctionCalls ev := by
      simp [passesFilters]
    have hres2 : ∀ fc ∈ getFunctionCalls ev, ∃ tool cid,
        getToolAndContext fc toolsDict = .ok (tool, cid) := by
      intro fc hfc
      obtain ⟨tool, cid, hok, hrest⟩ := hall fc hfc
      exact ⟨tool, cid, hok⟩
    have hdisp := dispatchCalls_quiet (α := α) plugins ic toolsDict
      (getFunctionCalls ev) hq hres2
    have hnone : (getFunctionCalls ev).filterMap
        (quietCallEvent (α := α) ic toolsDict) = [] := by
      rw [List.filterMap_eq_nil_iff]
      intro fc hfc
      obtain ⟨tool, cid, hok, hlr, hrun⟩ := hall fc hfc
      simp [quietCallEvent, quietCallResponse, hok, hrun, hlr,
        JSVal.isUndefOrNull]
    rw [hnone] at hdisp
    simp only [handleFunctionCallsAsync, hfilter]
    rw [hdisp]
    simp

theorem c7_filters_and_long_running_witness :
    handleFunctionCallsAsync wIc wEventX1 wDict [] [] [] (some ["other"])
      = .ok none ∧
    processOneCall (α := Nat) [] wIc wPendingDict [] []
      { id := some "x2", name := some "pending", args := some [] }
      = .ok none ∧
    handleFunctionCallsAsync wIc wEventX2 wPendingDict [] [] [] none
      = .ok none := by
  have h := c7_filters_and_long_running (α := Nat)
  refine ⟨?_, ?_, ?_⟩
  · apply h.1
    intro fc hfc i hid
    simp [getFunctionCalls, wEventX1] at hfc
    subst hfc
    simp at hid
    subst hid
    simp
  · exact h.2.1 [] wIc _ _ _ (some "x2")
      (by intro p hp; simp at hp) rfl rfl (Or.inl rfl)
  · apply h.2.2
    · intro p hp; simp at hp
    · intro fc hfc
      simp [getFunctionCalls, wEventX2] at hfc
      subst hfc
      exact ⟨_, some "x2", rfl, rfl, rfl⟩

theorem find?_first_true {β : Type} (l1 : List β) (x : β) (l2 : List β)
    (p : β → Bool) (h1 : ∀ y ∈ l1, p y = false) (hx : p x = true) :
    List.find? p (l1 ++ x :: l2) = some x := by
  induction l1 with
  | nil => simp [List.find?, hx]
  | cons y rest ih =>
    have hy := h1 y (by simp)
    simp only [List.cons_append, List.find?, hy]
    exact ih (fun z hz => h1 z (by simp [hz]))

/-- Claim C8: when the history holds a function-call event authored by a
sub-agent, no event of the history answers that call, and the new message
carries a function response with the call's id, agent resolution selects
the sub-agent that authored the call — even when the more recent history
events are authored by the root agent or by other agents. -/
theorem c8_function_response_resumption {α : Type} (t : AgentTree)
    (pre post : List (Event α)) (callEvent : Event α) (sub : AgentNode)
    (fid : String) (newMessage : Content)
    (hsub : t.subAgents.find? (fun n => n.name = sub.name) = some sub)
    (hroot : t.root.name ≠ sub.name)
    (hauthor : callEvent.author = sub.name)
    (hcall : (getFunctionCalls callEvent).any
      (fun fc => fc.id = some fid) = true)
    (hpre : ∀ e ∈ pre, (getFunctionCalls e).any
      (fun fc => fc.id = some fid) = false)
    (hpost : ∀ e ∈ post, (getFunctionCalls e).any
      (fun fc => fc.id = some fid) = false)
    (hnoresp : ∀ e ∈ pre ++ callEvent :: post,
      (getFunctionResponses e).all (fun fr => fr.id ≠ some fid) = true)
    (hmsg : ((contentFunctionResponses newMessage).filterMap
      (fun fr => fr.id)).head? = some fid) :
    determineAgentForResumption t (pre ++ callEvent :: post) newMessage
      = sub := by
  obtain ⟨rest, hfr⟩ : ∃ rest,
      (contentFunctionResponses newMessage).filterMap (fun fr => fr.id)
        = fid :: rest := by
    cases hfr : (contentFunctionResponses newMessage).filterMap
        (fun fr => fr.id) with
    | nil => rw [hfr] at hmsg; simp at hmsg
    | cons a l =>
      rw [hfr] at hmsg
      simp only [List.head?_cons, Option.some.injEq] at hmsg
      exact ⟨l, by rw [hmsg]⟩
  have hshape : (pre ++ callEvent :: post).reverse
      = post.reverse ++ callEvent :: pre.reverse := by
    simp
  have hfind : findCallAuthor (pre ++ callEvent :: post) fid
      = some callEvent.author := by
    unfold findCallAuthor
    rw [hshape, find?_first_true post.reverse callEvent pre.reverse _
      (fun y hy => hpost y (List.mem_reverse.mp hy)) hcall]
  have hfa : findAgent t sub.name = some sub := by
    simp [findAgent, hroot, hsub]
  simp only [determineAgentForResumption, hfr, hfind, hauthor, hfa]

theorem c8_function_response_resumption_witness :
    determineAgentForResumption
      { root := { name := "root_agent" }
        subAgents := [{ name := "sub_agent2" }] }
      ([({ author := "sub_agent2"
           content := some
             { role := some "model"
               parts := some
                 [{ functionCall := some
                     { id := some "func_456", name := some "test_func"
                       args := some [] } }] } } : Event Nat)]
        ++ [({ author := "root_agent"
               content := some
                 { role := some "model"
                   parts := some [{ text := some "Root response" }] } }
              : Event Nat)])
      { role := some "user"
        parts := some
          [{ functionResponse := some
              { id := some "func_456", name := some "test_func"
                response := some (.objV []) } }] }
      = { name := "sub_agent2" } := by
  have h := c8_function_response_resumption (α := Nat)
    { root := { name := "root_agent" }
      subAgents := [{ name := "sub_agent2" }] }
    []
    [{ author := "root_agent"
       content := some
         { role := some "model"
           parts := some [{ text := some "Root response" }] } }]
    { author := "sub_agent2"
      content := some
        { role := some "model"
          parts := some
            [{ functionCall := some
                { id := some "func_456", name := some "test_func"
                  args := some [] } }] } }
    { name := "sub_agent2" }
    "func_456"
    { role := some "user"
      parts := some
        [{ functionResponse := some
            { id := some "func_456", name := some "test_func"
              response := some (.objV []) } }] }
    rfl
    (by decide)
    rfl
    rfl
    (by intro e he; simp at he)
    (by
      intro e he
      simp only [List.mem_singleton] at he
      subst he
      rfl)
    (by
      intro e he
      simp only [List.nil_append, List.mem_cons, List.mem_singleton,
        List.not_mem_nil, or_false] at he
      rcases he with rfl | rfl <;> rfl)
    rfl
  simpa using h

/-! ## Heap access lemmas -/

theorem getD_append_lt {β : Type} (l : List β) (v d : β) (i : Nat)
    (h : i < l.length) : (l ++ [v]).getD i d = l.getD i d := by
  simp [List.getD, List.getElem?_append_left h]

theorem getD_append_len {β : Type} (l : List β) (v d : β) :
    (l ++ [v]).getD l.length d = v := by
  simp [List.getD, List.getElem?_concat_length]

theorem getD_set_ne {β : Type} (l : List β) (i j : Nat) (v d : β)
    (h : i ≠ j) : (l.set i v).getD j d = l.getD j d := by
  simp [List.getD, List.getElem?_set_ne h]

theorem getD_set_self {β : Type} (l : List β) (i : Nat) (v d : β)
    (h : i < l.length) : (l.set i v).getD i d = v := by
  simp [List.getD, List.getElem?_set_self, h]

theorem getD_set {β : Type} (l : List β) (i j : Nat) (v d : β) :
    (l.set i v).getD j d
      = if i = j ∧ i < l.length then v else l.getD j d := by
  by_cases hij : i = j
  · subst hij
    by_cases hlt : i < l.length
    · simp [getD_set_self l i v d hlt, hlt]
    · rw [List.set_eq_of_length_le (Nat.le_of_not_lt hlt)]
      simp [hlt]
  · simp [getD_set_ne l i j v d hij, hij]

theorem getVal_mem {β : Type} (m : List (String × β)) (k : String) (x : β)
    (h : getVal m k = some x) : (k, x) ∈ m := by
  induction m with
  | nil => simp [getVal] at h
  | cons p rest ih =>
    by_cases hp : p.1 = k
    · simp only [getVal, hp, if_true, Option.some.injEq] at h
      subst h
      rw [← hp]
      simp
    · simp only [getVal, hp, if_false] at h
      exact List.mem_cons_of_mem p (ih h)

theorem mem_setKey {β : Type} (m : List (String × β)) (k : String) (v : β)
    (x : String × β) (h : x ∈ setKey m k v) : x = (k, v) ∨ x ∈ m := by
  induction m with
  | nil => simpa [setKey] using h
  | cons p rest ih =>
    by_cases hp : p.1 = k
    · simp only [setKey, hp, if_true, List.mem_cons] at h
      rcases h with h | h
      · exact Or.inl h
      · exact Or.inr (List.mem_cons_of_mem p h)
    · simp only [setKey, hp, if_false, List.mem_cons] at h
      rcases h with h | h
      · exact Or.inr (by simp [h])
      · rcases ih h with h2 | h2
        · exact Or.inl h2
        · exact Or.inr (List.mem_cons_of_mem p h2)

/-! ## Session service lemmas -/

theorem getNested2_setNested2_self {β : Type}
    (m : List (String × List (String × β))) (k1 k2 : String) (v : β) :
    getNested2 (setNested2 m k1 k2 v) k1 k2 = some v := by
  unfold getNested2 setNested2
  rw [getVal_setKey_self]
  exact getVal_setKey_self _ k2 v

theorem innerMap_setNested2_self {β : Type}
    (m : List (String × List (String × β))) (k1 k2 : String) (v : β) :
    (getVal (setNested2 m k1 k2 v) k1).getD []
      = setKey ((getVal m k1).getD []) k2 v := by
  unfold setNested2
  rw [getVal_setKey_self]
  rfl

theorem inner2_setNested3_self {β : Type}
    (m : List (String × List (String × List (String × β))))
    (k1 k2 k3 : String) (v : β) :
    (getNested2 (setNested3 m k1 k2 k3 v) k1 k2).getD []
      = setKey ((getNested2 m k1 k2).getD []) k3 v := by
  unfold setNested3 setNested2 getNested2
  simp only [getVal_setKey_self]
  cases hm : getVal m k1 with
  | none => simp [getVal]
  | some m2 => simp

theorem getVal_routeFold {α β : Type} (R : β → List (String × α))
    (F : β → String → α → β)
    (hRF : ∀ m key v, R (F m key v) = setKey (R m) key v) (pre : String)
    (delta : List (String × α)) (m : β) (kk : String) :
    getVal (R (delta.foldl (fun m2 p =>
        if startsWith p.1 pre then F m2 (p.1.drop pre.length) p.2 else m2) m))
        kk
      = orVal (lastVal (scopedEntries delta pre) kk) (getVal (R m) kk) := by
  induction delta generalizing m with
  | nil => simp [scopedEntries, lastVal, getVal, orVal]
  | cons p rest ih =>
    simp only [List.foldl_cons]
    by_cases hp : startsWith p.1 pre
    · rw [if_pos hp, ih, hRF]
      have hse : scopedEntries (p :: rest) pre
          = (p.1.drop pre.length, p.2) :: scopedEntries rest pre := by
        simp [scopedEntries, hp]
      rw [hse, lastVal_cons]
      cases hr : lastVal (scopedEntries rest pre) kk with
      | some v2 => simp [orVal]
      | none =>
        by_cases hk : p.1.drop pre.length = kk
        · simp [orVal, hk, getVal_setKey_self]
        · simp [orVal, hk,
            getVal_setKey_ne (R m) (p.1.drop pre.length) kk p.2
              (fun hh => hk hh.symm)]
    · rw [if_neg hp, ih]
      have hse : scopedEntries (p :: rest) pre = scopedEntries rest pre := by
        simp [scopedEntries, hp]
      rw [hse]

theorem startsWith_ne {a b pre : String} (ha : startsWith a pre = true)
    (hb : startsWith b pre = false) : a ≠ b := by
  intro h
  subst h
  rw [ha] at hb
  exact Bool.true_eq_false.mp hb

/-- The session-local write loop of the base `appendEvent` never changes
the value a scoped (prefixed) key reads. -/
theorem localFold_preserves_scoped {α : Type} (delta st : List (String × α))
    (key : String)
    (hkey : startsWith key appScope = true ∨ startsWith key userScope = true) :
    getVal (localStateWrite delta st) key = getVal st key := by
  unfold localStateWrite
  induction delta generalizing st with
  | nil => rfl
  | cons p rest ih =>
    simp only [List.foldl_cons]
    by_cases hp : startsWith p.1 appScope || startsWith p.1 userScope
    · rw [if_pos hp, ih]
    · rw [if_neg hp, ih]
      have hpa : startsWith p.1 appScope = false := by
        cases hpa : startsWith p.1 appScope
        · rfl
        · exact absurd (by simp [hpa]) hp
      have hpu : startsWith p.1 userScope = false := by
        cases hpu : startsWith p.1 userScope
        · rfl
        · exact absurd (by simp [hpu]) hp
      rcases hkey with hk | hk
      · exact getVal_setKey_ne st p.1 key p.2 (startsWith_ne hk hpa)
      · exact getVal_setKey_ne st p.1 key p.2 (startsWith_ne hk hpu)

/-- Closed form of a successful `getSession`: the returned reference is the
fresh clone at the end of the session heap, whose state cell holds the
stored state overlaid with the current scoped entries and whose events cell
holds the stored events filtered by the config; the store records and every
pre-existing cell stay as they were. -/
theorem getSession_eq {α : Type} (s : SvcState α) (a u sid : String)
    (cfg : Option GetSessionConfig) (r : Nat)
    (hr : getNested3 s.sessions a u sid = some r) :
    getSession s a u sid cfg
      = ({ s with
            sessionHeap := s.sessionHeap ++
              [{ heapGet s.sessionHeap r with
                  stateRef := s.stateHeap.length
                  eventsRef := s.eventsHeap.length }]
            stateHeap := (s.stateHeap ++
                [s.stateHeap.getD (heapGet s.sessionHeap r).stateRef []]).set
              s.stateHeap.length
              (mergeStateList ((getVal s.appState a).getD [])
                ((getNested2 s.userState a u).getD [])
                (s.stateHeap.getD (heapGet s.sessionHeap r).stateRef []))
            eventsHeap := (s.eventsHeap ++
                [s.eventsHeap.getD (heapGet s.sessionHeap r).eventsRef []]).set
              s.eventsHeap.length
              (applyGetSessionConfig cfg
                (s.eventsHeap.getD (heapGet s.sessionHeap r).eventsRef [])) },
         some s.sessionHeap.length) := by
  simp only [getSession, hr, structuredCloneSession, heapAlloc, heapGet,
    heapSet, mergeState, mergeStateList]
  rw [getD_append_len s.sessionHeap]
  simp only [getD_append_len]

theorem getVal_setKey {α : Type} (m : List (String × α)) (k k2 : String)
    (v : α) :
    getVal (setKey m k v) k2 = if k = k2 then some v else getVal m k2 := by
  by_cases hk : k = k2
  · subst hk
    simp [getVal_setKey_self]
  · simp [hk, getVal_setKey_ne m k k2 v (fun hh => hk hh.symm)]

theorem getVal_mergeStateList {α : Type}
    (appE userE st0 : List (String × α)) (key : String) :
    getVal (mergeStateList appE userE st0) key
      = orVal (lastVal (userE.map (fun p => (userScope ++ p.1, p.2))) key)
          (orVal (lastVal (appE.map (fun p => (appScope ++ p.1, p.2))) key)
            (getVal st0 key)) := by
  have h1 : ∀ (pre : String) (l st : List (String × α)),
      l.foldl (fun acc p => setKey acc (pre ++ p.1) p.2) st
        = assignPairs st (l.map (fun p => (pre ++ p.1, p.2))) := by
    intro pre l st
    unfold assignPairs
    rw [List.foldl_map]
  unfold mergeStateList
  rw [h1, h1, getVal_assignPairs, getVal_assignPairs]

theorem routeScopedDelta_appState {α : Type} (s : SvcState α)
    (a u : String) (delta : List (String × α)) :
    (routeScopedDelta s a u delta).appState
      = delta.foldl (fun m p =>
          if startsWith p.1 appScope then
            setNested2 m a (p.1.drop appScope.length) p.2
          else m) s.appState := by
  unfold routeScopedDelta
  induction delta generalizing s with
  | nil => rfl
  | cons p rest ih =>
    simp only [List.foldl_cons]
    by_cases hA : startsWith p.1 appScope <;>
      by_cases hU : startsWith p.1 userScope <;>
        simp only [hA, hU, if_true, if_false] <;> exact ih _

theorem routeScopedDelta_userState {α : Type} (s : SvcState α)
    (a u : String) (delta : List (String × α)) :
    (routeScopedDelta s a u delta).userState
      = delta.foldl (fun m p =>
          if startsWith p.1 userScope then
            setNested3 m a u (p.1.drop userScope.length) p.2
          else m) s.userState := by
  unfold routeScopedDelta
  induction delta generalizing s with
  | nil => rfl
  | cons p rest ih =>
    simp only [List.foldl_cons]
    by_cases hA : startsWith p.1 appScope <;>
      by_cases hU : startsWith p.1 userScope <;>
        simp only [hA, hU, if_true, if_false] <;> exact ih _

theorem routeScopedDelta_frame {α : Type} (s : SvcState α)
    (a u : String) (delta : List (String × α)) :
    (routeScopedDelta s a u delta).sessionHeap = s.sessionHeap ∧
    (routeScopedDelta s a u delta).stateHeap = s.stateHeap ∧
    (routeScopedDelta s a u delta).eventsHeap = s.eventsHeap ∧
    (routeScopedDelta s a u delta).sessions = s.sessions := by
  unfold routeScopedDelta
  induction delta generalizing s with
  | nil => exact ⟨rfl, rfl, rfl, rfl⟩
  | cons p rest ih =>
    simp only [List.foldl_cons]
    by_cases hA : startsWith p.1 appScope <;>
      by_cases hU : startsWith p.1 userScope <;>
        simp only [hA, hU, if_true, if_false] <;> exact ih _

theorem getNested2_bind {β : Type} (m : List (String × List (String × β)))
    (k1 k2 : String) :
    getNested2 m k1 k2 = (getVal m k1).bind (fun m2 => getVal m2 k2) := by
  unfold getNested2
  cases getVal m k1 <;> rfl

theorem getNested3_bind {β : Type}
    (m : List (String × List (String × List (String × β))))
    (k1 k2 k3 : String) :
    getNested3 m k1 k2 k3
      = (getVal m k1).bind (fun m2 =>
          (getVal m2 k2).bind (fun m3 => getVal m3 k3)) := by
  unfold getNested3
  cases hm : getVal m k1 with
  | none => rfl
  | some m2 => exact getNested2_bind m2 k2 k3

theorem getNested3_storedRef {α : Type} (s : SvcState α)
    (a u sid : String) (r : Nat)
    (h : getNested3 s.sessions a u sid = some r) : storedRef s r := by
  rw [getNested3_bind] at h
  cases hm : getVal s.sessions a with
  | none => rw [hm] at h; simp at h
  | some m2 =>
    rw [hm] at h
    simp only [Option.some_bind] at h
    cases hm2 : getVal m2 u with
    | none => rw [hm2] at h; simp at h
    | some m3 =>
      rw [hm2] at h
      simp only [Option.some_bind] at h
      exact ⟨(a, m2), getVal_mem _ _ _ hm, (u, m3), getVal_mem _ _ _ hm2,
        (sid, r), getVal_mem _ _ _ h, rfl⟩

theorem storedRefsOk_refOk {α : Type} (s : SvcState α)
    (hwf : storedRefsOk s) (r : Nat) (hr : storedRef s r) : refOk s r := by
  obtain ⟨e1, h1, e2, h2, e3, h3, hr'⟩ := hr
  subst hr'
  exact hwf e1 h1 e2 h2 e3 h3

theorem getNested3_setNested3 {α : Type}
    (m : List (String × List (String × List (String × α))))
    (a u sid : String) (v : α) (a2 u2 sid2 : String) (r : α)
    (h : getNested3 (setNested3 m a u sid v) a2 u2 sid2 = some r) :
    r = v ∨ getNested3 m a2 u2 sid2 = some r := by
  rw [getNested3_bind] at h
  rw [getNested3_bind]
  unfold setNested3 setNested2 at h
  rw [getVal_setKey] at h
  by_cases ha : a = a2
  · subst ha
    simp only [eq_self_iff_true, if_true, ite_true, Option.some_bind] at h
    rw [getVal_setKey] at h
    by_cases hu : u = u2
    · subst hu
      simp only [eq_self_iff_true, if_true, ite_true, Option.some_bind] at h
      rw [getVal_setKey] at h
      by_cases hsid : sid = sid2
      · simp only [if_pos hsid, Option.some.injEq] at h
        exact Or.inl h.symm
      · simp only [if_neg hsid] at h
        cases hm : getVal m a with
        | none =>
          rw [hm] at h
          simp [getVal] at h
        | some m2 =>
          rw [hm] at h
          simp only [Option.getD_some, Option.some_bind] at h
          cases hm2 : getVal m2 u with
          | none =>
            rw [hm2] at h
            simp [getVal] at h
          | some m3 =>
            rw [hm2] at h
            simp only [Option.getD_some] at h
            refine Or.inr ?_
            simp only [Option.some_bind, hm2]
            exact h
    · simp only [if_neg hu] at h
      cases hm : getVal m a with
      | none =>
        rw [hm] at h
        simp [getVal] at h
      | some m2 =>
        rw [hm] at h
        simp only [Option.getD_some, Option.some_bind] at h
        refine Or.inr ?_
        simp only [Option.some_bind]
        exact h
  · simp only [if_neg ha] at h
    exact Or.inr h

theorem getD_append2_len {β : Type} (l : List β) (x y d : β) :
    ((l ++ [x]) ++ [y]).getD (l.length + 1) d = y := by
  have h : l.length + 1 = (l ++ [x]).length := by simp
  rw [h]
  exact getD_append_len (l ++ [x]) y d

theorem getD_append2_lt {β : Type} (l : List β) (x y d : β) (i : Nat)
    (h : i < l.length) : ((l ++ [x]) ++ [y]).getD i d = l.getD i d := by
  rw [getD_append_lt _ y d i (by simp; omega), getD_append_lt _ x d i h]

/-- Closed form of `createSession`: the new session object is stored at the
end of the session heap, pointing at fresh state and events cells; the
returned reference is a clone of it with its own fresh cells, the clone's
state already overlaid with the current scoped entries. -/
theorem createSession_eq {α : Type} (s : SvcState α) (a u : String)
    (state : Option (List (String × α))) (sessionId : Option String)
    (genId : String) (now : Nat) :
    createSession s a u state sessionId genId now
      = ({ s with
            sessions := setNested3 s.sessions a u
              (resolveSessionId sessionId genId) s.sessionHeap.length
            sessionHeap := (s.sessionHeap ++
              [{ id := resolveSessionId sessionId genId, appName := a
                 userId := u, stateRef := s.stateHeap.length
                 eventsRef := s.eventsHeap.length
                 lastUpdateTime := now }]) ++
              [{ id := resolveSessionId sessionId genId, appName := a
                 userId := u, stateRef := s.stateHeap.length + 1
                 eventsRef := s.eventsHeap.length + 1
                 lastUpdateTime := now }]
            stateHeap := ((s.stateHeap ++ [state.getD []]) ++
                [state.getD []]).set (s.stateHeap.length + 1)
              (mergeStateList ((getVal s.appState a).getD [])
                ((getNested2 s.userState a u).getD []) (state.getD []))
            eventsHeap := (s.eventsHeap ++ [[]]) ++ [[]] },
         s.sessionHeap.length + 1) := by
  simp only [createSession, structuredCloneSession, heapAlloc, heapGet,
    heapSet, mergeState, mergeStateList]
  rw [getD_append_len s.sessionHeap]
  simp only [getD_append_len, getD_append2_len, List.length_append,
    List.length_cons, List.length_nil]

/-- The observable result of `getSession` in closed form: the value a
caller reads from the returned copy is the stored session's identity, its
stored state overlaid with the current scoped entries, and its stored
events filtered by the config — all recomputed from the store at read
time. -/
theorem sessionRead_spec {α : Type} (s : SvcState α) (a u sid : String)
    (cfg : Option GetSessionConfig) :
    sessionRead s a u sid cfg
      = match getNested3 s.sessions a u sid with
        | none => none
        | some r => some
            { id := (heapGet s.sessionHeap r).id
              appName := (heapGet s.sessionHeap r).appName
              userId := (heapGet s.sessionHeap r).userId
              state := mergeStateList ((getVal s.appState a).getD [])
                ((getNested2 s.userState a u).getD [])
                (s.stateHeap.getD (heapGet s.sessionHeap r).stateRef [])
              events := applyGetSessionConfig cfg
                (s.eventsHeap.getD (heapGet s.sessionHeap r).eventsRef [])
              lastUpdateTime := (heapGet s.sessionHeap r).lastUpdateTime }
    := by
  unfold sessionRead
  cases hr : getNested3 s.sessions a u sid with
  | none => simp [getSession, hr]
  | some r =>
    rw [getSession_eq s a u sid cfg r hr]
    simp only [readSessionValue, heapGet, getD_append_len]
    rw [getD_set_self _ _ _ _ (by simp),
      getD_set_self _ _ _ _ (by simp)]

theorem readSessionValue_frame {α : Type} (s s2 : SvcState α) (r0 : Nat)
    (hobj : heapGet s2.sessionHeap r0 = heapGet s.sessionHeap r0)
    (hst : s2.stateHeap.getD (heapGet s.sessionHeap r0).stateRef []
      = s.stateHeap.getD (heapGet s.sessionHeap r0).stateRef [])
    (hev : s2.eventsHeap.getD (heapGet s.sessionHeap r0).eventsRef []
      = s.eventsHeap.getD (heapGet s.sessionHeap r0).eventsRef []) :
    readSessionValue s2 r0 = readSessionValue s r0 := by
  simp only [readSessionValue]
  rw [hobj, hst, hev]

theorem clientMut_frame {α : Type} (s : SvcState α) (rc : Nat) (k : String)
    (v : α) (e : Event α) :
    (clientPushEvent (clientSetStateKey s rc k v) rc e).sessionHeap
      = s.sessionHeap ∧
    (clientPushEvent (clientSetStateKey s rc k v) rc e).sessions
      = s.sessions ∧
    (clientPushEvent (clientSetStateKey s rc k v) rc e).appState
      = s.appState ∧
    (clientPushEvent (clientSetStateKey s rc k v) rc e).userState
      = s.userState ∧
    (∀ j, j ≠ (heapGet s.sessionHeap rc).stateRef →
      (clientPushEvent (clientSetStateKey s rc k v) rc e).stateHeap.getD j []
        = s.stateHeap.getD j []) ∧
    (∀ j, j ≠ (heapGet s.sessionHeap rc).eventsRef →
      (clientPushEvent (clientSetStateKey s rc k v) rc e).eventsHeap.getD j []
        = s.eventsHeap.getD j []) := by
  refine ⟨rfl, rfl, rfl, rfl, ?_, ?_⟩
  · intro j hj
    show ((s.stateHeap.set _ _).getD j []) = s.stateHeap.getD j []
    exact getD_set_ne _ _ _ _ _ (fun hh => hj hh.symm)
  · intro j hj
    show ((s.eventsHeap.set _ _).getD j []) = s.eventsHeap.getD j []
    exact getD_set_ne _ _ _ _ _ (fun hh => hj hh.symm)

theorem getD_append2_mid {β : Type} (l : List β) (x y d : β) :
    ((l ++ [x]) ++ [y]).getD l.length d = x := by
  rw [getD_append_lt _ y d _ (by simp), getD_append_len]

/-! ## Claim C10 -/

/-- Isolation facts for `getSession`: stored sessions keep their values,
and the returned copy's cells are fresh, so caller-side writes through the
returned reference change neither any stored session's value nor any later
`getSession` result. -/
theorem getSession_isolation {α : Type} (s : SvcState α)
    (app user sid : String) (cfg : Option GetSessionConfig)
    (s1 : SvcState α) (rc : Nat) (k : String) (v : α) (e : Event α)
    (hwf : storedRefsOk s)
    (hget : getSession s app user sid cfg = (s1, some rc)) :
    (∀ r0, storedRef s r0 → readSessionValue s1 r0 = readSessionValue s r0)
    ∧
    (∀ r0, storedRef s r0 →
      readSessionValue (clientPushEvent (clientSetStateKey s1 rc k v) rc e)
        r0 = readSessionValue s r0) ∧
    (∀ (a2 u2 sid2 : String) (cfg2 : Option GetSessionConfig),
      sessionRead (clientPushEvent (clientSetStateKey s1 rc k v) rc e)
          a2 u2 sid2 cfg2
        = sessionRead s1 a2 u2 sid2 cfg2) := by
  cases hr : getNested3 s.sessions app user sid with
  | none =>
    rw [show getSession s app user sid cfg = (s, none) from by
      simp [getSession, hr]] at hget
    exact absurd (congrArg Prod.snd hget) (by simp)
  | some r =>
    rw [getSession_eq s app user sid cfg r hr] at hget
    injection hget with hs1 hrc
    injection hrc with hrc
    have hses : s1.sessions = s.sessions := by rw [← hs1]
    have happ : s1.appState = s.appState := by rw [← hs1]
    have huser : s1.userState = s.userState := by rw [← hs1]
    have hF1 : ∀ r0, r0 < s.sessionHeap.length →
        heapGet s1.sessionHeap r0 = heapGet s.sessionHeap r0 := by
      intro r0 h
      rw [← hs1]
      exact getD_append_lt _ _ _ _ h
    have hF2 : heapGet s1.sessionHeap rc
        = { heapGet s.sessionHeap r with
            stateRef := s.stateHeap.length
            eventsRef := s.eventsHeap.length } := by
      rw [← hs1, ← hrc]
      exact getD_append_len _ _ _
    have hF3 : ∀ j, j < s.stateHeap.length →
        s1.stateHeap.getD j [] = s.stateHeap.getD j [] := by
      intro j h
      rw [← hs1]
      show ((s.stateHeap ++ _).set _ _).getD j [] = _
      rw [getD_set_ne _ _ _ _ _ (Nat.ne_of_gt h)]
      exact getD_append_lt _ _ _ _ h
    have hF4 : ∀ j, j < s.eventsHeap.length →
        s1.eventsHeap.getD j [] = s.eventsHeap.getD j [] := by
      intro j h
      rw [← hs1]
      show ((s.eventsHeap ++ _).set _ _).getD j [] = _
      rw [getD_set_ne _ _ _ _ _ (Nat.ne_of_gt h)]
      exact getD_append_lt _ _ _ _ h
    obtain ⟨hm1, hm2, hm3, hm4, hm5, hm6⟩ := clientMut_frame s1 rc k v e
    have hA : ∀ r0, storedRef s r0 →
        readSessionValue s1 r0 = readSessionValue s r0 := by
      intro r0 hr0
      obtain ⟨h1, h2, h3⟩ := storedRefsOk_refOk s hwf r0 hr0
      exact readSessionValue_frame s s1 r0 (hF1 r0 h1)
        (hF3 _ h2) (hF4 _ h3)
    have hMst : ∀ j, j < s.stateHeap.length →
        (clientPushEvent (clientSetStateKey s1 rc k v) rc e).stateHeap.getD
          j [] = s1.stateHeap.getD j [] := by
      intro j h
      exact hm5 j (by rw [hF2]; exact Nat.ne_of_lt h)
    have hMev : ∀ j, j < s.eventsHeap.length →
        (clientPushEvent (clientSetStateKey s1 rc k v) rc e).eventsHeap.getD
          j [] = s1.eventsHeap.getD j [] := by
      intro j h
      exact hm6 j (by rw [hF2]; exact Nat.ne_of_lt h)
    refine ⟨hA, ?_, ?_⟩
    · intro r0 hr0
      obtain ⟨h1, h2, h3⟩ := storedRefsOk_refOk s hwf r0 hr0
      refine Eq.trans (readSessionValue_frame s1 _ r0 (by rw [hm1]) ?_ ?_)
        (hA r0 hr0)
      · rw [(hF1 r0 h1)]
        exact hMst _ h2
      · rw [(hF1 r0 h1)]
        exact hMev _ h3
    · intro a2 u2 sid2 cfg2
      rw [sessionRead_spec, sessionRead_spec, hm2]
      cases hr2 : getNested3 s1.sessions a2 u2 sid2 with
      | none => rfl
      | some r0 =>
        have hst0 : storedRef s r0 :=
          getNested3_storedRef s _ _ _ _ (hses ▸ hr2)
        obtain ⟨h1, h2, h3⟩ := storedRefsOk_refOk s hwf r0 hst0
        have e1 := hMst (heapGet s1.sessionHeap r0).stateRef
          (by rw [hF1 r0 h1]; exact h2)
        have e2 := hMev (heapGet s1.sessionHeap r0).eventsRef
          (by rw [hF1 r0 h1]; exact h3)
        simp only [hm1, hm3, hm4, e1, e2]

/-- Isolation facts for `createSession`, mirroring those of `getSession`:
previously stored sessions keep their values, and caller-side writes
through the returned copy are invisible to the store and to later reads. -/
theorem createSession_isolation {α : Type} (s : SvcState α)
    (app user : String) (st : Option (List (String × α)))
    (sidArg : Option String) (gid : String) (now : Nat)
    (s1 : SvcState α) (rc : Nat) (k : String) (v : α) (e : Event α)
    (hwf : storedRefsOk s)
    (hcr : createSession s app user st sidArg gid now = (s1, rc)) :
    (∀ r0, storedRef s r0 → readSessionValue s1 r0 = readSessionValue s r0)
    ∧
    (∀ r0, storedRef s r0 →
      readSessionValue (clientPushEvent (clientSetStateKey s1 rc k v) rc e)
        r0 = readSessionValue s r0) ∧
    (∀ (a2 u2 sid2 : String) (cfg2 : Option GetSessionConfig),
      sessionRead (clientPushEvent (clientSetStateKey s1 rc k v) rc e)
          a2 u2 sid2 cfg2
        = sessionRead s1 a2 u2 sid2 cfg2) := by
  rw [createSession_eq] at hcr
  injection hcr with hs1 hrc
  have hses : s1.sessions = setNested3 s.sessions app user
      (resolveSessionId sidArg gid) s.sessionHeap.length := by rw [← hs1]
  have hF1 : ∀ r0, r0 < s.sessionHeap.length →
      heapGet s1.sessionHeap r0 = heapGet s.sessionHeap r0 := by
    intro r0 h
    rw [← hs1]
    exact getD_append2_lt _ _ _ _ _ h
  have hFmid : heapGet s1.sessionHeap s.sessionHeap.length
      = { id := resolveSessionId sidArg gid, appName := app
          userId := user, stateRef := s.stateHeap.length
          eventsRef := s.eventsHeap.length, lastUpdateTime := now } := by
    rw [← hs1]
    exact getD_append2_mid _ _ _ _
  have hF2 : heapGet s1.sessionHeap rc
      = { id := resolveSessionId sidArg gid, appName := app
          userId := user, stateRef := s.stateHeap.length + 1
          eventsRef := s.eventsHeap.length + 1, lastUpdateTime := now } := by
    rw [← hs1, ← hrc]
    exact getD_append2_len _ _ _ _
  have hF3 : ∀ j, j < s.stateHeap.length →
      s1.stateHeap.getD j [] = s.stateHeap.getD j [] := by
    intro j h
    rw [← hs1]
    show (((s.stateHeap ++ _) ++ _).set _ _).getD j [] = _
    rw [getD_set_ne _ _ _ _ _ (by omega)]
    exact getD_append2_lt _ _ _ _ _ h
  have hF3mid : s1.stateHeap.getD s.stateHeap.length []
      = st.getD [] := by
    rw [← hs1]
    show (((s.stateHeap ++ _) ++ _).set _ _).getD _ [] = _
    rw [getD_set_ne _ _ _ _ _ (by omega)]
    exact getD_append2_mid _ _ _ _
  have hF4 : ∀ j, j < s.eventsHeap.length →
      s1.eventsHeap.getD j [] = s.eventsHeap.getD j [] := by
    intro j h
    rw [← hs1]
    exact getD_append2_lt _ _ _ _ _ h
  have hF4mid : s1.eventsHeap.getD s.eventsHeap.length [] = [] := by
    rw [← hs1]
    exact getD_append2_mid _ _ _ _
  obtain ⟨hm1, hm2, hm3, hm4, hm5, hm6⟩ := clientMut_frame s1 rc k v e
  have hA : ∀ r0, storedRef s r0 →
      readSessionValue s1 r0 = readSessionValue s r0 := by
    intro r0 hr0
    obtain ⟨h1, h2, h3⟩ := storedRefsOk_refOk s hwf r0 hr0
    exact readSessionValue_frame s s1 r0 (hF1 r0 h1)
      (hF3 _ h2) (hF4 _ h3)
  have hMst : ∀ j, j < s.stateHeap.length + 1 →
      (clientPushEvent (clientSetStateKey s1 rc k v) rc e).stateHeap.getD
        j [] = s1.stateHeap.getD j [] := by
    intro j h
    exact hm5 j (by simp only [hF2]; omega)
  have hMev : ∀ j, j < s.eventsHeap.length + 1 →
      (clientPushEvent (clientSetStateKey s1 rc k v) rc e).eventsHeap.getD
        j [] = s1.eventsHeap.getD j [] := by
    intro j h
    exact hm6 j (by simp only [hF2]; omega)
  refine ⟨hA, ?_, ?_⟩
  · intro r0 hr0
    obtain ⟨h1, h2, h3⟩ := storedRefsOk_refOk s hwf r0 hr0
    refine Eq.trans (readSessionValue_frame s1 _ r0 (by rw [hm1]) ?_ ?_)
      (hA r0 hr0)
    · rw [(hF1 r0 h1)]
      exact hMst _ (by omega)
    · rw [(hF1 r0 h1)]
      exact hMev _ (by omega)
  · intro a2 u2 sid2 cfg2
    rw [sessionRead_spec, sessionRead_spec, hm2]
    cases hr2 : getNested3 s1.sessions a2 u2 sid2 with
    | none => rfl
    | some r0 =>
      rcases getNested3_setNested3 s.sessions app user
          (resolveSessionId sidArg gid) s.sessionHeap.length a2 u2 sid2 r0
          (hses ▸ hr2) with hnew | hold
      · subst hnew
        have e1 := hMst (heapGet s1.sessionHeap s.sessionHeap.length).stateRef
          (by simp only [hFmid]; omega)
        have e2 := hMev (heapGet s1.sessionHeap s.sessionHeap.length).eventsRef
          (by simp only [hFmid]; omega)
        simp only [hm1, hm3, hm4, e1, e2]
      · have hst0 : storedRef s r0 := getNested3_storedRef s _ _ _ _ hold
        obtain ⟨h1, h2, h3⟩ := storedRefsOk_refOk s hwf r0 hst0
        have e1 := hMst (heapGet s1.sessionHeap r0).stateRef
          (by rw [hF1 r0 h1]; omega)
        have e2 := hMev (heapGet s1.sessionHeap r0).eventsRef
          (by rw [hF1 r0 h1]; omega)
        simp only [hm1, hm3, hm4, e1, e2]

/-- Claim C10: sessions handed out by `createSession` and `getSession` are
deep copies — mutating the returned session's state record or events array
changes neither the value of any stored session nor the result of any later
`getSession`; reading a session leaves every stored session's value
untouched, and creating a session leaves every previously stored session's
value untouched. -/
theorem c10_sessions_are_deep_copies {α : Type} (s : SvcState α)
    (k : String) (v : α) (e : Event α) (hwf : storedRefsOk s) :
    (∀ (app user sid : String) (cfg : Option GetSessionConfig)
      (s1 : SvcState α) (rc : Nat),
      getSession s app user sid cfg = (s1, some rc) →
      (∀ r0, storedRef s r0 → readSessionValue s1 r0 = readSessionValue s r0)
      ∧
      (∀ r0, storedRef s r0 →
        readSessionValue (clientPushEvent (clientSetStateKey s1 rc k v) rc e)
          r0 = readSessionValue s r0) ∧
      (∀ (a2 u2 sid2 : String) (cfg2 : Option GetSessionConfig),
        sessionRead (clientPushEvent (clientSetStateKey s1 rc k v) rc e)
            a2 u2 sid2 cfg2
          = sessionRead s1 a2 u2 sid2 cfg2)) ∧
    (∀ (app user : String) (st : Option (List (String × α)))
      (sidArg : Option String) (gid : String) (now : Nat)
      (s1 : SvcState α) (rc : Nat),
      createSession s app user st sidArg gid now = (s1, rc) →
      (∀ r0, storedRef s r0 → readSessionValue s1 r0 = readSessionValue s r0)
      ∧
      (∀ r0, storedRef s r0 →
        readSessionValue (clientPushEvent (clientSetStateKey s1 rc k v) rc e)
          r0 = readSessionValue s r0) ∧
      (∀ (a2 u2 sid2 : String) (cfg2 : Option GetSessionConfig),
        sessionRead (clientPushEvent (clientSetStateKey s1 rc k v) rc e)
            a2 u2 sid2 cfg2
          = sessionRead s1 a2 u2 sid2 cfg2)) := by
  constructor
  · intro app user sid cfg s1 rc hget
    exact getSession_isolation s app user sid cfg s1 rc k v e hwf hget
  · intro app user st sidArg gid now s1 rc hcr
    exact createSession_isolation s app user st sidArg gid now s1 rc k v e
      hwf hcr

theorem c10_sessions_are_deep_copies_witness :
    storedRefsOk w10s ∧ storedRef w10s 0 ∧
    readSessionValue (clientPushEvent (clientSetStateKey w10s1 2 "k" 7)
        2 w10ev) 0 = readSessionValue w10s 0 ∧
    sessionRead (clientPushEvent (clientSetStateKey w10s1 2 "k" 7) 2 w10ev)
        "app" "u" "sid" none
      = sessionRead w10s1 "app" "u" "sid" none := by
  have h := (c10_sessions_are_deep_copies w10s "k" 7 w10ev (by decide)).1
    "app" "u" "sid" none w10s1 2 rfl
  exact ⟨by decide, by decide, h.2.1 0 (by decide),
    h.2.2 "app" "u" "sid" none⟩

/-! ## Claim C4 -/

theorem set_scoped_cell {α : Type} (l : List (List (String × α))) (i : Nat)
    (delta : List (String × α)) (j : Nat) (key : String)
    (hkey : startsWith key appScope = true ∨ startsWith key userScope = true) :
    getVal ((l.set i (localStateWrite delta (l.getD i []))).getD j []) key
      = getVal (l.getD j []) key := by
  rw [getD_set]
  by_cases hc : i = j ∧ i < l.length
  · rw [if_pos hc]
    obtain ⟨hj, _⟩ := hc
    subst hj
    exact localFold_preserves_scoped _ _ _ hkey
  · rw [if_neg hc]

theorem appendEvent_appState_hit {α : Type} (s : SvcState α) (r r0 : Nat)
    (ev : Event α)
    (hr0 : getNested3 s.sessions (heapGet s.sessionHeap r).appName
      (heapGet s.sessionHeap r).userId (heapGet s.sessionHeap r).id
      = some r0) :
    (appendEvent s r ev).appState
      = (eventStateDelta ev).foldl (fun m p =>
          if startsWith p.1 appScope then
            setNested2 m (heapGet s.sessionHeap r).appName
              (p.1.drop appScope.length) p.2
          else m) s.appState := by
  simp only [appendEvent, baseAppendEvent, heapSet]
  rw [hr0]
  rw [routeScopedDelta_appState]

theorem appendEvent_userState_hit {α : Type} (s : SvcState α) (r r0 : Nat)
    (ev : Event α)
    (hr0 : getNested3 s.sessions (heapGet s.sessionHeap r).appName
      (heapGet s.sessionHeap r).userId (heapGet s.sessionHeap r).id
      = some r0) :
    (appendEvent s r ev).userState
      = (eventStateDelta ev).foldl (fun m p =>
          if startsWith p.1 userScope then
            setNested3 m (heapGet s.sessionHeap r).appName
              (heapGet s.sessionHeap r).userId
              (p.1.drop userScope.length) p.2
          else m) s.userState := by
  simp only [appendEvent, baseAppendEvent, heapSet]
  rw [hr0]
  rw [routeScopedDelta_userState]

theorem appendEvent_scoped_cell {α : Type} (s : SvcState α) (r r0 : Nat)
    (ev : Event α) (j : Nat) (key : String)
    (hr0 : getNested3 s.sessions (heapGet s.sessionHeap r).appName
      (heapGet s.sessionHeap r).userId (heapGet s.sessionHeap r).id
      = some r0)
    (hkey : startsWith key appScope = true ∨ startsWith key userScope = true) :
    getVal ((appendEvent s r ev).stateHeap.getD j []) key
      = getVal (s.stateHeap.getD j []) key := by
  simp only [appendEvent, baseAppendEvent, heapSet]
  rw [hr0]
  rw [(routeScopedDelta_frame _ _ _ _).2.1, (routeScopedDelta_frame _ _ _ _).1]
  simp only []
  exact Eq.trans
    (set_scoped_cell _ _ _ j key hkey)
    (set_scoped_cell _ _ _ j key hkey)

theorem getSession_state_overlay {α : Type} (s : SvcState α)
    (a u sid : String) (cfg : Option GetSessionConfig) (r : Nat)
    (s1 : SvcState α) (rc : Nat)
    (hr : getNested3 s.sessions a u sid = some r)
    (hget : getSession s a u sid cfg = (s1, some rc)) (key : String) :
    getVal (readSessionValue s1 rc).state key
      = orVal (lastVal (((getNested2 s.userState a u).getD []).map
            (fun p => (userScope ++ p.1, p.2))) key)
          (orVal (lastVal (((getVal s.appState a).getD []).map
              (fun p => (appScope ++ p.1, p.2))) key)
            (getVal (readSessionValue s r).state key)) := by
  rw [getSession_eq s a u sid cfg r hr] at hget
  injection hget with h1 h2
  injection h2 with h2
  subst h2
  subst h1
  simp only [readSessionValue, heapGet, getD_append_len]
  rw [getD_set_self _ _ _ _ (by simp)]
  rw [getVal_mergeStateList]

theorem createSession_state_overlay {α : Type} (s : SvcState α)
    (a u : String) (st : Option (List (String × α)))
    (sidArg : Option String) (gid : String) (now : Nat)
    (s1 : SvcState α) (rc : Nat)
    (hcr : createSession s a u st sidArg gid now = (s1, rc)) (key : String) :
    getVal (readSessionValue s1 rc).state key
      = orVal (lastVal (((getNested2 s.userState a u).getD []).map
            (fun p => (userScope ++ p.1, p.2))) key)
          (orVal (lastVal (((getVal s.appState a).getD []).map
              (fun p => (appScope ++ p.1, p.2))) key)
            (getVal (st.getD []) key)) := by
  rw [createSession_eq] at hcr
  injection hcr with h1 h2
  subst h2
  subst h1
  simp only [readSessionValue, heapGet, getD_append2_len]
  rw [getD_set_self _ _ _ _ (by simp)]
  rw [getVal_mergeStateList]

/-- Claim C4: the state of a session returned by a read is the stored
session-local state overlaid, at read time, with the current app-scoped
entries under the app prefix and the current user-scoped entries under the
user prefix; appending an event whose state delta holds a prefixed key
updates only the app-level or user-level store, with the prefix stripped,
and a prefixed key is never written into any session-local state cell. -/
theorem c4_scoped_state_overlay {α : Type} (s : SvcState α) :
    (∀ (a u sid : String) (cfg : Option GetSessionConfig) (r : Nat)
      (s1 : SvcState α) (rc : Nat),
      getNested3 s.sessions a u sid = some r →
      getSession s a u sid cfg = (s1, some rc) →
      ∀ key, getVal (readSessionValue s1 rc).state key
        = orVal (lastVal (((getNested2 s.userState a u).getD []).map
              (fun p => (userScope ++ p.1, p.2))) key)
            (orVal (lastVal (((getVal s.appState a).getD []).map
                (fun p => (appScope ++ p.1, p.2))) key)
              (getVal (readSessionValue s r).state key))) ∧
    (∀ (a u : String) (st : Option (List (String × α)))
      (sidArg : Option String) (gid : String) (now : Nat)
      (s1 : SvcState α) (rc : Nat),
      createSession s a u st sidArg gid now = (s1, rc) →
      ∀ key, getVal (readSessionValue s1 rc).state key
        = orVal (lastVal (((getNested2 s.userState a u).getD []).map
              (fun p => (userScope ++ p.1, p.2))) key)
            (orVal (lastVal (((getVal s.appState a).getD []).map
                (fun p => (appScope ++ p.1, p.2))) key)
              (getVal (st.getD []) key))) ∧
    (∀ (r r0 : Nat) (ev : Event α),
      getNested3 s.sessions (heapGet s.sessionHeap r).appName
        (heapGet s.sessionHeap r).userId (heapGet s.sessionHeap r).id
        = some r0 →
      (∀ kk, getVal ((getVal (appendEvent s r ev).appState
            (heapGet s.sessionHeap r).appName).getD []) kk
        = orVal (lastVal (scopedEntries (eventStateDelta ev) appScope) kk)
            (getVal ((getVal s.appState
              (heapGet s.sessionHeap r).appName).getD []) kk)) ∧
      (∀ kk, getVal ((getNested2 (appendEvent s r ev).userState
            (heapGet s.sessionHeap r).appName
            (heapGet s.sessionHeap r).userId).getD []) kk
        = orVal (lastVal (scopedEntries (eventStateDelta ev) userScope) kk)
            (getVal ((getNested2 s.userState
              (heapGet s.sessionHeap r).appName
              (heapGet s.sessionHeap r).userId).getD []) kk)) ∧
      (∀ (j : Nat) (key : String),
        startsWith key appScope = true ∨ startsWith key userScope = true →
        getVal ((appendEvent s r ev).stateHeap.getD j []) key
          = getVal (s.stateHeap.getD j []) key)) := by
  refine ⟨?_, ?_, ?_⟩
  · intro a u sid cfg r s1 rc hr hget key
    exact getSession_state_overlay s a u sid cfg r s1 rc hr hget key
  · intro a u st sidArg gid now s1 rc hcr key
    exact createSession_state_overlay s a u st sidArg gid now s1 rc hcr key
  · intro r r0 ev hr0
    refine ⟨?_, ?_, ?_⟩
    · intro kk
      rw [appendEvent_appState_hit s r r0 ev hr0]
      exact getVal_routeFold
        (fun m => (getVal m (heapGet s.sessionHeap r).appName).getD [])
        (fun m k v => setNested2 m (heapGet s.sessionHeap r).appName k v)
        (fun m k v =>
          innerMap_setNested2_self m (heapGet s.sessionHeap r).appName k v)
        appScope (eventStateDelta ev) s.appState kk
    · intro kk
      rw [appendEvent_userState_hit s r r0 ev hr0]
      exact getVal_routeFold
        (fun m => (getNested2 m (heapGet s.sessionHeap r).appName
          (heapGet s.sessionHeap r).userId).getD [])
        (fun m k v => setNested3 m (heapGet s.sessionHeap r).appName
          (heapGet s.sessionHeap r).userId k v)
        (fun m k v =>
          inner2_setNested3_self m (heapGet s.sessionHeap r).appName
            (heapGet s.sessionHeap r).userId k v)
        userScope (eventStateDelta ev) s.userState kk
    · intro j key hkey
      exact appendEvent_scoped_cell s r r0 ev j key hr0 hkey

theorem c4_scoped_state_overlay_witness :
    getNested3 w4s.sessions "app" "u" "sid" = some 0 ∧
    getSession w4s "app" "u" "sid" none = (w4g1, some 2) ∧
    getVal (readSessionValue w4g1 2).state "x"
      = orVal (lastVal (((getNested2 w4s.userState "app" "u").getD []).map
            (fun p => (userScope ++ p.1, p.2))) "x")
          (orVal (lastVal (((getVal w4s.appState "app").getD []).map
              (fun p => (appScope ++ p.1, p.2))) "x")
            (getVal (readSessionValue w4s 0).state "x")) ∧
    getVal ((getVal (appendEvent w4s 0 w4ev).appState
          (heapGet w4s.sessionHeap 0).appName).getD []) "t"
      = orVal (lastVal (scopedEntries (eventStateDelta w4ev) appScope) "t")
          (getVal ((getVal w4s.appState
            (heapGet w4s.sessionHeap 0).appName).getD []) "t") ∧
    getVal ((getNested2 (appendEvent w4s 0 w4ev).userState
          (heapGet w4s.sessionHeap 0).appName
          (heapGet w4s.sessionHeap 0).userId).getD []) "q"
      = orVal (lastVal (scopedEntries (eventStateDelta w4ev) userScope) "q")
          (getVal ((getNested2 w4s.userState
            (heapGet w4s.sessionHeap 0).appName
            (heapGet w4s.sessionHeap 0).userId).getD []) "q") ∧
    getVal ((appendEvent w4s 0 w4ev).stateHeap.getD 0 []) "app:t"
      = getVal (w4s.stateHeap.getD 0 []) "app:t" := by
  have h := c4_scoped_state_overlay w4s
  refine ⟨rfl, rfl, ?_, ?_, ?_, ?_⟩
  · exact h.1 "app" "u" "sid" none 0 w4g1 2 rfl rfl "x"
  · exact (h.2.2 0 0 w4ev rfl).1 "t"
  · exact (h.2.2 0 0 w4ev rfl).2.1 "q"
  · exact (h.2.2 0 0 w4ev rfl).2.2 0 "app:t" (Or.inl (by decide))

end Adk
